import Mathlib

/-!
Verification of the stylesheet parser and layout engine of the
`rust-browser-engine` repository, against its natural-language specification.

The Rust sources embedded here are `src/css.rs` (value model),
`src/css_parser.rs` (stylesheet parser) and `src/layout.rs` (layout engine).
The styled-node interface (`style.rs`: `StyledNode`, `value`, `num_or`,
`get_display`) and the parser helpers `is_valid_start_indent`,
`is_valid_indent` and `translate_color` are not present in the sources;
those few definitions are modelled from the specification and are marked
`Modelled from the spec:` in their doc comments.

Numbers: the Rust code computes with `f32`.  The embedding uses `Rat`;
all layout arithmetic in the claims is addition, subtraction, halving and
comparison on small decimal magnitudes, where `f32` and `Rat` agree.
Strings are embedded as `List Char` while scanning, `String` in results;
Rust's Unicode-aware `char::is_numeric` / `to_lowercase` are rendered with
`Char.isDigit` / `Char.toLower`, which coincide on the ASCII inputs the
claims are about.
-/

namespace Browser

/-- `Unit` from `css.rs` (renamed `CssUnit` to avoid the Lean builtin):
the closed enumeration of 16 CSS length/percentage units.
`inch` renders Rust's `In` (`in` is a Lean keyword). -/
inductive CssUnit where
  | em | ex | ch | rem | vh | vw | vmin | vmax
  | px | mm | q | cm | inch | pt | pc | pct
deriving DecidableEq, Repr

/-- `Color` from `css.rs`: rgba components. -/
structure Color where
  r : Rat
  g : Rat
  b : Rat
  a : Rat
deriving DecidableEq, Repr

/-- `Value` from `css.rs`: a typed declaration value. -/
inductive Value where
  | color (c : Color)
  | length (n : Rat) (u : CssUnit)
  | other (s : String)
deriving DecidableEq, Repr

/-- `Color::default()` from `css.rs`: opaque white. -/
def Color.default : Color := ⟨1, 1, 1, 1⟩

/-- The numeric value of a digit run, as produced by Rust's
`num_string.parse::<f32>().unwrap_or(0.0)` in `translate_length`
(`css_parser.rs` line 221): an empty or non-digit string fails and
defaults to `0.0`; a pure digit run parses to its decimal value. -/
def parseDigitsOrZero (s : List Char) : Rat :=
  if s ≠ [] ∧ s.all Char.isDigit then
    ((s.foldl (fun n c => n * 10 + (c.toNat - '0'.toNat)) 0 : Nat) : Rat)
  else 0

/-- The accumulator loop of `translate_length` (`css_parser.rs` lines
210-219): split the value into a leading digit run (`num_string`) and the
remainder (`unit`), tracked by the `parsing_num` flag. -/
def translateLengthSplit : List Char → Bool → List Char × List Char
  | [], _ => ([], [])
  | c :: cs, parsingNum =>
    if c.isDigit ∧ parsingNum then
      let (n, u) := translateLengthSplit cs parsingNum
      (c :: n, u)
    else
      let (n, u) := translateLengthSplit cs false
      (n, c :: u)

/-- `translate_length` from `css_parser.rs` (lines 207-242): parse a value
string into a `Length`, defaulting the magnitude to 0 on parse failure and
the unit to `Px` on an unrecognized or empty suffix. -/
def translateLength (value : String) : Value :=
  let (numString, unitString) := translateLengthSplit value.data true
  let number := parseDigitsOrZero numString
  match String.mk unitString with
  | "em" => .length number .em
  | "ex" => .length number .ex
  | "ch" => .length number .ch
  | "rem" => .length number .rem
  | "vh" => .length number .vh
  | "vw" => .length number .vw
  | "vmin" => .length number .vmin
  | "vmax" => .length number .vmax
  | "px" => .length number .px
  | "mm" => .length number .mm
  | "q" => .length number .q
  | "cm" => .length number .cm
  | "in" => .length number .inch
  | "pt" => .length number .pt
  | "pc" => .length number .pc
  | "%" => .length number .pct
  | _ => .length number .px

/-- `SimpleSelector` from `css.rs`: optional tag, optional id, class list. -/
structure SimpleSelector where
  tagName : Option String
  id : Option String
  classes : List String
deriving DecidableEq, Repr

/-- `SimpleSelector::default()` from `css.rs`. -/
def SimpleSelector.default : SimpleSelector := ⟨none, none, []⟩

/-- `Selector` from `css.rs`: simple selectors plus raw combinators. -/
structure Selector where
  simple : List SimpleSelector
  combinators : List Char
deriving DecidableEq, Repr

/-- `Selector::default()` from `css.rs`. -/
def Selector.default : Selector := ⟨[], []⟩

/-- `Declaration` from `css.rs`: lowercase property name plus typed value. -/
structure Declaration where
  property : String
  value : Value
deriving DecidableEq, Repr

/-- `Rule` from `css.rs`. -/
structure Rule where
  selectors : List Selector
  declarations : List Declaration
deriving DecidableEq, Repr

/-- `Stylesheet` from `css.rs`: an ordered sequence of rules. -/
structure Stylesheet where
  rules : List Rule
deriving DecidableEq, Repr

/-- Modelled from the spec: `translate_color`, the delegated color helper
absent from the sources — "maps recognized color keywords/values to an RGBA
value; undefined/unrecognized tokens should resolve to a defined fallback
color rather than failing".  A few keywords suffice for the claims; every
input yields a defined `Color`. -/
def translateColor (value : String) : Color :=
  match value with
  | "red" => ⟨1, 0, 0, 1⟩
  | "green" => ⟨0, 1, 0, 1⟩
  | "blue" => ⟨0, 0, 1, 1⟩
  | "black" => ⟨0, 0, 0, 1⟩
  | "white" => ⟨1, 1, 1, 1⟩
  | _ => Color.default

/-- The property→kind table of `parse_declarations` (`css_parser.rs` lines
151-170): color properties go to `Color`, geometry properties to `Length`
via `translate_length`, everything else to `Other`. -/
def valueForProperty (property : String) (value : String) : Value :=
  match property with
  | "background-color" | "border-color" | "color" => .color (translateColor value)
  | "margin-right" | "margin-bottom" | "margin-left" | "margin-top"
  | "padding-right" | "padding-bottom" | "padding-left" | "padding-top"
  | "border-right-width" | "border-bottom-width" | "border-left-width"
  | "border-top-width" | "height" | "width" => translateLength value
  | _ => .other value

/-- Modelled from the spec: `is_valid_start_indent`, absent from the
sources — a character that may start an identifier ("an optional leading
identifier is the tag name"). -/
def isValidStartIndent (c : Char) : Bool :=
  c.isAlpha || c = '_'

/-- Modelled from the spec: `is_valid_indent`, absent from the sources — a
character that may continue an identifier. -/
def isValidIndent (c : Char) : Bool :=
  c.isAlphanum || c = '-' || c = '_'

/-- `consume_while` from `css_parser.rs` (lines 193-204): take the longest
prefix satisfying the condition, return it with the rest of the input. -/
def consumeWhile (p : Char → Bool) : List Char → List Char × List Char
  | [] => ([], [])
  | c :: cs =>
    if p c then
      let (t, r) := consumeWhile p cs
      (c :: t, r)
    else ([], c :: cs)

/-- `parse_identifier` from `css_parser.rs` (lines 117-128): if the next
character can start an identifier, consume identifier characters and
lowercase them; otherwise consume nothing. -/
def parseIdentifier (input : List Char) : List Char × List Char :=
  match input with
  | c :: _ =>
    if isValidStartIndent c then
      let (t, r) := consumeWhile isValidIndent input
      (t.map Char.toLower, r)
    else ([], input)
  | [] => ([], input)

/-- `parse_id` from `css_parser.rs` (lines 130-135): an identifier, where
the empty identifier becomes `none`. -/
def parseId (input : List Char) : Option String × List Char :=
  match parseIdentifier input with
  | ([], r) => (none, r)
  | (s, r) => (some (String.mk s), r)

/-- The `#`/`.` token loop of `parse_selector` (`css_parser.rs` lines
75-108), with explicit fuel (`none` = fuel exhausted; the loop state is the
simple selector and the `multiple_ids` flag).  A second `#id` clears the id
and latches `multiple_ids`; `.class` tokens push nonempty class names; any
other run of characters is discarded up to `,` or `{`. -/
def selLoopF : Nat → SimpleSelector → Bool → List Char →
    Option (SimpleSelector × Bool × List Char)
  | 0, _, _, _ => none
  | fuel + 1, ss, multipleIds, input =>
    match input with
    | [] => some (ss, multipleIds, [])
    | c :: cs =>
      if c = ',' ∨ c = '{' ∨ c.isWhitespace then some (ss, multipleIds, c :: cs)
      else if c = '#' then
        if ss.id.isSome || multipleIds then
          let (_, r) := parseId cs
          selLoopF fuel { ss with id := none } true r
        else
          let (i, r) := parseId cs
          selLoopF fuel { ss with id := i } multipleIds r
      else if c = '.' then
        let (cls, r) := parseIdentifier cs
        if cls ≠ [] then
          selLoopF fuel { ss with classes := ss.classes ++ [String.mk cls] } multipleIds r
        else selLoopF fuel ss multipleIds r
      else
        let (_, r) := consumeWhile (fun x => x ≠ ',' && x ≠ '{') (c :: cs)
        selLoopF fuel ss multipleIds r

/-- `parse_selector` from `css_parser.rs` (lines 64-115): skip whitespace,
optionally read a tag name, run the token loop, and keep the simple
selector only if it is not the default. -/
def parseSelectorF (fuel : Nat) (input : List Char) : Option (Selector × List Char) :=
  let (_, r0) := consumeWhile Char.isWhitespace input
  let (tag, r1) :=
    match r0 with
    | c :: _ =>
      if isValidStartIndent c then
        let (t, r) := parseIdentifier r0
        (some (String.mk t), r)
      else (none, r0)
    | [] => (none, r0)
  match selLoopF fuel { SimpleSelector.default with tagName := tag } false r1 with
  | none => none
  | some (ss, _, rest) =>
    let sel : Selector :=
      if ss = SimpleSelector.default then Selector.default
      else { Selector.default with simple := [ss] }
    some (sel, rest)

/-- The optional comma consumed after a selector (`css_parser.rs` lines
53-55). -/
def commaSkip : List Char → List Char
  | ',' :: t => t
  | r => r

/-- The rule-selector loop of `parse_selectors` (`css_parser.rs` lines
41-61), with fuel: while the next character is not `{`, parse one selector
(dropping defaults), skip whitespace and an optional comma; on exit consume
one character (the `{`, or nothing at end of input). -/
def parseSelectorsLoopF : Nat → List Selector → List Char →
    Option (List Selector × List Char)
  | 0, _, _ => none
  | fuel + 1, acc, input =>
    match input with
    | [] => some (acc, [])
    | c :: cs =>
      if c = '{' then some (acc, cs)
      else
        match parseSelectorF (fuel + 1) (c :: cs) with
        | none => none
        | some (sel, r1) =>
          let acc' := if sel = Selector.default then acc else acc ++ [sel]
          let (_, r2) := consumeWhile Char.isWhitespace r1
          let r3 := commaSkip r2
          parseSelectorsLoopF fuel acc' r3

/-- One iteration of the declaration loop of `parse_declarations`
(`css_parser.rs` lines 141-185): skip whitespace, read the property up to
`:`, drop one character, skip whitespace, read the value up to `;`,
newline or `}`, type it via the property table, then accept the
declaration if followed by `;` (consumed) or, after whitespace, by `}`
(not consumed).  Returns the accepted declaration (if any) and the rest. -/
def parseOneDeclaration (input : List Char) : Option Declaration × List Char :=
  let (_, r0) := consumeWhile Char.isWhitespace input
  let (prop, r1) := consumeWhile (fun c => c ≠ ':') r0
  let r2 := r1.tail
  let (_, r3) := consumeWhile Char.isWhitespace r2
  let (valChars, r4) := consumeWhile (fun c => c ≠ ';' && c ≠ '\n' && c ≠ '}') r3
  let property := String.mk (prop.map Char.toLower)
  let value := String.mk (valChars.map Char.toLower)
  let decl : Declaration := ⟨property, valueForProperty property value⟩
  match r4 with
  | ';' :: t =>
    let (_, r5) := consumeWhile Char.isWhitespace t
    (some decl, r5)
  | _ =>
    let (_, r5) := consumeWhile Char.isWhitespace r4
    match r5 with
    | '}' :: _ =>
      let (_, r6) := consumeWhile Char.isWhitespace r5
      (some decl, r6)
    | _ => (none, r5)

/-- The declaration loop of `parse_declarations` (`css_parser.rs` lines
140-190), with fuel: while the next character is not `}`, parse one
declaration; on exit consume one character (the `}`, or nothing at end of
input). -/
def parseDeclarationsLoopF : Nat → List Declaration → List Char →
    Option (List Declaration × List Char)
  | 0, _, _ => none
  | fuel + 1, acc, input =>
    match input with
    | [] => some (acc, [])
    | c :: cs =>
      if c = '}' then some (acc, cs)
      else
        let (d, rest) := parseOneDeclaration (c :: cs)
        parseDeclarationsLoopF fuel (acc ++ d.toList) rest

/-- `parse_stylesheet` from `css_parser.rs` (lines 27-39), with fuel:
while input remains, parse one rule (selectors then declarations) and
append it. -/
def parseStylesheetF : Nat → List Rule → List Char → Option (List Rule)
  | 0, _, _ => none
  | fuel + 1, acc, input =>
    match input with
    | [] => some acc
    | c :: cs =>
      match parseSelectorsLoopF (fuel + 1) [] (c :: cs) with
      | none => none
      | some (sels, r1) =>
        match parseDeclarationsLoopF (fuel + 1) [] r1 with
        | none => none
        | some (decls, r2) => parseStylesheetF fuel (acc ++ [⟨sels, decls⟩]) r2

/-- `CssParser::parse_stylesheet` run with enough fuel for its input. -/
def parseStylesheet (s : String) : Option Stylesheet :=
  (parseStylesheetF (s.data.length + 1) [] s.data).map Stylesheet.mk

/-- A `#id` or `.class` token of a selector text, identified by its payload
(the characters after the `#` or `.` marker). -/
inductive SelToken where
  | idTok (s : List Char)
  | clsTok (s : List Char)

/-- The payload of a selector token. -/
def SelToken.payload : SelToken → List Char
  | .idTok s => s
  | .clsTok s => s

/-- The text of a selector token: its marker followed by its payload. -/
def SelToken.render : SelToken → List Char
  | .idTok s => '#' :: s
  | .clsTok s => '.' :: s

/-- The text of a run of selector tokens. -/
def renderToks : List SelToken → List Char
  | [] => []
  | t :: ts => t.render ++ renderToks ts

/-- A token payload is a well-formed identifier: nonempty, a valid start
character, and every character a valid identifier character. -/
def identOk : List Char → Bool
  | [] => false
  | c :: cs => isValidStartIndent c && (c :: cs).all isValidIndent

/-- A suffix on which the selector token loop stops: empty input, or a
leading `,`, `{` or whitespace character. -/
def stopOk : List Char → Bool
  | [] => true
  | c :: _ => c = ',' || c = '{' || c.isWhitespace

/-- The number of `#id` tokens in a run. -/
def countId (ts : List SelToken) : Nat :=
  (ts.filter fun t => match t with | .idTok _ => true | _ => false).length

/-- The lowercased class names of the `.class` tokens of a run, in order. -/
def classList (ts : List SelToken) : List String :=
  ts.filterMap fun t =>
    match t with
    | .clsTok s => some (String.mk (s.map Char.toLower))
    | _ => none

/-- The id / multiple-ids-flag / collected-classes state that the selector
token loop computes over a run of tokens, starting from id `i` and flag
`m`. -/
def selFold : Option String → Bool → List SelToken → Option String × Bool × List String
  | i, m, [] => (i, m, [])
  | i, m, .idTok s :: ts =>
    if i.isSome || m then selFold none true ts
    else selFold (some (String.mk (s.map Char.toLower))) m ts
  | i, m, .clsTok s :: ts =>
    ((selFold i m ts).1, (selFold i m ts).2.1,
      String.mk (s.map Char.toLower) :: (selFold i m ts).2.2)

theorem parseStylesheet_example_width : parseStylesheet "div { width: 10px; }" =
    some ⟨[⟨[⟨[⟨some "div", none, []⟩], []⟩], [⟨"width", .length 10 .px⟩]⟩]⟩ := by decide

theorem parseStylesheet_example_ids : parseStylesheet "#a#b.c { }" =
    some ⟨[⟨[⟨[⟨none, none, ["c"]⟩], []⟩], []⟩]⟩ := by decide

/-! ## Layout engine (`layout.rs`) -/

/-- Modelled from the spec: `Display`, the resolved display mode returned
by the styled node's `get_display()` (`style.rs` is absent from the
sources) — one of Block, Inline, InlineBlock, None. -/
inductive Display where
  | block
  | inline
  | inlineBlock
  | none
deriving DecidableEq, Repr

/-- Modelled from the spec: a styled node (`style.rs` is absent from the
sources) — a document node annotated with resolved declaration values
(carried as an association list), a resolved display mode, and ordered
children. -/
inductive StyledNode where
  | mk (props : List (String × Value)) (display : Display) (children : List StyledNode)

/-- The resolved declarations of a styled node. -/
def StyledNode.props : StyledNode → List (String × Value)
  | .mk p _ _ => p

/-- Modelled from the spec: `get_display()` of a styled node. -/
def StyledNode.display : StyledNode → Display
  | .mk _ d _ => d

/-- The ordered children of a styled node. -/
def StyledNode.children : StyledNode → List StyledNode
  | .mk _ _ c => c

/-- Modelled from the spec: `StyledNode::value(property)` — the resolved
declaration value for a property, or absent. -/
def StyledNode.value (s : StyledNode) (prop : String) : Option Value :=
  s.props.lookup prop

/-- Modelled from the spec: `StyledNode::num_or(property, default)` — the
numeric magnitude of a resolved `Length` value, or the given default when
the property is absent or non-numeric. -/
def StyledNode.numOr (s : StyledNode) (prop : String) (d : Rat) : Rat :=
  match s.value prop with
  | some (.length n _) => n
  | _ => d

/-- `Rectangle` from `layout.rs`. -/
structure Rectangle where
  x : Rat
  y : Rat
  width : Rat
  height : Rat
deriving DecidableEq, Repr

/-- `Rectangle::default()`: all fields zero. -/
def Rectangle.default : Rectangle := ⟨0, 0, 0, 0⟩

/-- `EdgeSizes` from `layout.rs`. -/
structure EdgeSizes where
  top : Rat
  bottom : Rat
  left : Rat
  right : Rat
deriving DecidableEq, Repr

/-- `EdgeSizes::default()`: all fields zero. -/
def EdgeSizes.default : EdgeSizes := ⟨0, 0, 0, 0⟩

/-- `Dimensions` from `layout.rs`: the content rectangle, the three edge
quadruples, and the internal flow-cursor rectangle `current`. -/
structure Dimensions where
  content : Rectangle
  padding : EdgeSizes
  border : EdgeSizes
  margin : EdgeSizes
  current : Rectangle
deriving DecidableEq, Repr

/-- `Dimensions::default()`: everything zero. -/
def Dimensions.default : Dimensions :=
  ⟨Rectangle.default, EdgeSizes.default, EdgeSizes.default, EdgeSizes.default,
    Rectangle.default⟩

/-- `Rectangle::expanded` from `layout.rs` (lines 286-295). -/
def Rectangle.expanded (rect : Rectangle) (e : EdgeSizes) : Rectangle :=
  ⟨rect.x - e.left, rect.y - e.top,
    rect.width + e.left + e.right, rect.height + e.top + e.bottom⟩

/-- `Dimensions::padding_box` from `layout.rs`. -/
def Dimensions.paddingBox (d : Dimensions) : Rectangle :=
  d.content.expanded d.padding

/-- `Dimensions::border_box` from `layout.rs`. -/
def Dimensions.borderBox (d : Dimensions) : Rectangle :=
  d.paddingBox.expanded d.border

/-- `Dimensions::margin_box` from `layout.rs`. -/
def Dimensions.marginBox (d : Dimensions) : Rectangle :=
  d.borderBox.expanded d.margin

/-- `BoxType` from `layout.rs`. -/
inductive BoxType where
  | block
  | inlineBlock
  | inline
  | anonymous
deriving DecidableEq, Repr

/-- `LayoutBox` from `layout.rs`: dimensions, box type, the styled node the
box was derived from, and child boxes. -/
inductive LayoutBox where
  | mk (dimensions : Dimensions) (boxType : BoxType) (styledNode : StyledNode)
      (children : List LayoutBox)

/-- The dimensions of a layout box. -/
def LayoutBox.dimensions : LayoutBox → Dimensions
  | .mk d _ _ _ => d

/-- The box type of a layout box. -/
def LayoutBox.boxType : LayoutBox → BoxType
  | .mk _ bt _ _ => bt

/-- The styled node a layout box was derived from. -/
def LayoutBox.styledNode : LayoutBox → StyledNode
  | .mk _ _ s _ => s

/-- The children of a layout box. -/
def LayoutBox.children : LayoutBox → List LayoutBox
  | .mk _ _ _ kids => kids

/-- Failure of a layout pass.  `unsupportedUnit` is the `panic!` of
`get_abs_num` (`layout.rs` line 342); `outOfFuel` is an artifact of the
embedding (the Rust recursion is bounded only by the call stack) and is
proved unreachable for sufficient fuel. -/
inductive LayoutErr where
  | unsupportedUnit (msg : String)
  | outOfFuel
deriving DecidableEq, Repr

/-- `get_abs_num` from `layout.rs` (lines 336-348): the absolute pixel
value of a `Length` declaration — `px` verbatim, `percent` against the
containing block's content width, any other unit is the fatal panic;
absent or non-`Length` values give `none`. -/
def getAbsNum (s : StyledNode) (bBox : Dimensions) (prop : String) :
    Except LayoutErr (Option Rat) :=
  match s.value prop with
  | some (.length l u) =>
    match u with
    | .px => .ok (some l)
    | .pct => .ok (some (l * bBox.content.width / 100))
    | _ => .error (.unsupportedUnit "unimplemented css unit length")
  | some _ => .ok none
  | Option.none => .ok none

/-- Modelled from the spec: Rust's `str::parse::<f32>` as used on raw
`Other` margin strings in `calculate_width` (`layout.rs` lines 89, 97),
rendered for plain decimal forms `[+-]?digits[.digits]?`; anything else
fails (and the caller defaults to 0). -/
def rustParseF32 (s : String) : Option Rat :=
  let (sign, rest) : Rat × List Char :=
    match s.data with
    | '-' :: t => (-1, t)
    | '+' :: t => (1, t)
    | t => (1, t)
  let (intPart, r1) := consumeWhile Char.isDigit rest
  let intVal : Nat := intPart.foldl (fun n c => n * 10 + (c.toNat - '0'.toNat)) 0
  match r1 with
  | [] => if intPart ≠ [] then some (sign * intVal) else Option.none
  | '.' :: fr =>
    let (fracPart, r2) := consumeWhile Char.isDigit fr
    let fracVal : Nat := fracPart.foldl (fun n c => n * 10 + (c.toNat - '0'.toNat)) 0
    if r2 = [] ∧ (intPart ≠ [] ∨ fracPart ≠ []) then
      some (sign * (intVal + (fracVal : Rat) / ((10 : Rat) ^ fracPart.length)))
    else Option.none
  | _ => Option.none

/-- The margin extraction of `calculate_width` (`layout.rs` lines 87-101):
the numeric magnitude is parsed out of the raw string only when the
resolved value is the `Other` variant; a typed `Length` or `Color` value,
or an absent declaration, contributes `0.0`. -/
def marginNumOf : Option Value → Rat
  | some (.other str) => (rustParseF32 str).getD 0
  | some _ => 0
  | Option.none => 0

/-- `calculate_width` from `layout.rs` (lines 79-145): CSS2.1-style width
and auto-margin resolution against the containing block `bBox`, updating
the box's dimensions `dIn`.  Note line 104 reads the right border width
from the property `"border-left-right"`. -/
def calculateWidth (s : StyledNode) (dIn : Dimensions) (bBox : Dimensions) :
    Except LayoutErr Dimensions := do
  let width := (← getAbsNum s bBox "width").getD 0
  let marginLeft := s.value "margin-left"
  let marginRight := s.value "margin-right"
  let marginLeftNum := marginNumOf marginLeft
  let marginRightNum := marginNumOf marginRight
  let d := { dIn with
    border.left := s.numOr "border-left-width" 0,
    border.right := s.numOr "border-left-right" 0,
    padding.left := s.numOr "padding-left" 0,
    padding.right := s.numOr "padding-right" 0 }
  let total := width + marginLeftNum + marginRightNum + d.border.left + d.border.right +
    d.padding.left + d.padding.right
  let underflow := bBox.content.width - total
  if width = 0 then
    if underflow ≥ 0 then
      pure { d with
        content.width := underflow,
        margin.right := marginRightNum,
        margin.left := marginLeftNum }
    else
      pure { d with
        margin.right := marginRightNum + underflow,
        content.width := width,
        margin.left := marginLeftNum }
  else
    match marginLeft, marginRight with
    | Option.none, some _ =>
      pure { d with
        margin.left := underflow,
        margin.right := marginRightNum,
        content.width := width }
    | some _, Option.none =>
      pure { d with
        margin.right := underflow,
        margin.left := marginLeftNum,
        content.width := width }
    | Option.none, Option.none =>
      pure { d with
        margin.left := underflow / 2,
        margin.right := underflow / 2,
        content.width := width }
    | some _, some _ =>
      pure { d with
        margin.right := marginRightNum + underflow,
        margin.left := marginLeftNum,
        content.width := width }

/-- `calculate_pos` from `layout.rs` (lines 147-160): read the vertical
edges, then place the content rectangle — `y` stacks below everything
already accumulated in the containing block's content height. -/
def calculatePos (s : StyledNode) (dIn : Dimensions) (bBox : Dimensions) : Dimensions :=
  let d := { dIn with
    margin.top := s.numOr "margin-top" 0,
    margin.bottom := s.numOr "margin-bottom" 0,
    border.top := s.numOr "border-top-width" 0,
    border.bottom := s.numOr "border-bottom-width" 0,
    padding.top := s.numOr "padding-top" 0,
    padding.bottom := s.numOr "padding-bottom" 0 }
  { d with
    content.x := bBox.content.x + d.margin.left + d.border.left + d.padding.left,
    content.y := bBox.content.height + bBox.content.y + d.margin.top + d.border.top +
      d.padding.top }

/-- `calculate_height` from `layout.rs` (lines 162-167): an explicit
`height` declaration resolving to a `Length` overwrites the content height
with its raw magnitude (the unit is ignored). -/
def calculateHeight (s : StyledNode) (d : Dimensions) : Dimensions :=
  match s.value "height" with
  | some (.length n _) => { d with content.height := n }
  | _ => d

/-- `calculate_inline_width` from `layout.rs` (lines 224-235): direct
reads, no auto-margin distribution. -/
def calculateInlineWidth (s : StyledNode) (dIn : Dimensions) (bBox : Dimensions) :
    Except LayoutErr Dimensions := do
  let w := (← getAbsNum s bBox "width").getD 0
  pure { dIn with
    content.width := w,
    margin.left := s.numOr "margin-left" 0,
    margin.right := s.numOr "margin-right" 0,
    padding.left := s.numOr "padding-left" 0,
    padding.right := s.numOr "padding-right" 0,
    border.left := s.numOr "border-left-width" 0,
    border.right := s.numOr "border-right-width" 0 }

/-- `calculate_inline_pos` from `layout.rs` (lines 237-250): like
`calculate_pos` but the position also incorporates the containing block's
flow cursor (`current`), and does not add its accumulated content height. -/
def calculateInlinePos (s : StyledNode) (dIn : Dimensions) (bBox : Dimensions) : Dimensions :=
  let d := { dIn with
    margin.top := s.numOr "margin-top" 0,
    margin.bottom := s.numOr "margin-bottom" 0,
    padding.top := s.numOr "padding-top" 0,
    padding.bottom := s.numOr "padding-bottom" 0,
    border.top := s.numOr "border-top-width" 0,
    border.bottom := s.numOr "border-bottom-width" 0 }
  { d with
    content.x := bBox.content.x + bBox.current.x + d.margin.left + d.border.left +
      d.padding.left,
    content.y := bBox.content.y + bBox.current.y + d.margin.top + d.border.top +
      d.padding.top }

/-- The flush-before-a-block-child test at the top of the child loop
(`layout.rs` lines 176-185): when an inline-block run is interrupted by a
block child, add `max_child_height` to the content height and reset the
cursor. -/
def preFlush (d : Dimensions) (maxChildHeight : Rat) (prev cur : BoxType) : Dimensions :=
  match prev, cur with
  | .inlineBlock, .block =>
    { d with
      content.height := d.content.height + maxChildHeight,
      current.x := 0 }
  | _, _ => d

/-- One iteration of the child loop of `layout_children` (`layout.rs`
lines 175-213): flush the run if a block child interrupts an inline-block
run; lay out the child; track its margin-box height against
`max_child_height`; then account for it — a block child immediately adds
its margin-box height to the content height, an inline-block child
advances the cursor by its margin-box width and, when the advance exceeds
the parent's content width, flushes the run and re-lays the same child at
the new cursor before advancing again.  Returns the parent dimensions, the
running max height, and the laid-out child (whose box type is the next
iteration's `prev`). -/
def layoutChildStep (recur : LayoutBox → Dimensions → Except LayoutErr LayoutBox)
    (d : Dimensions) (maxChildHeight : Rat) (prev : BoxType) (child : LayoutBox) :
    Except LayoutErr (Dimensions × Rat × LayoutBox) := do
  let d := preFlush d maxChildHeight prev child.boxType
  let child ← recur child d
  let newHeight := child.dimensions.marginBox.height
  let maxChildHeight := if newHeight > maxChildHeight then newHeight else maxChildHeight
  let (d, child) ←
    match child.boxType with
    | .block =>
      pure ({ d with content.height := d.content.height + child.dimensions.marginBox.height },
        child)
    | .inlineBlock => do
      let d := { d with current.x := d.current.x + child.dimensions.marginBox.width }
      if d.current.x > d.content.width then
        let d := { d with
          content.height := d.content.height + maxChildHeight,
          current.x := 0 }
        let child ← recur child d
        pure ({ d with current.x := d.current.x + child.dimensions.marginBox.width }, child)
      else pure (d, child)
    | _ => pure (d, child)
  pure (d, maxChildHeight, child)

/-- The child loop of `layout_children` (`layout.rs` lines 169-215),
parameterized by the recursive layout function `recur`.  State: the
parent's dimensions `d`, the running `max_child_height`, and the previous
child's box type. -/
def layoutChildrenAux (recur : LayoutBox → Dimensions → Except LayoutErr LayoutBox) :
    Dimensions → Rat → BoxType → List LayoutBox →
    Except LayoutErr (Dimensions × List LayoutBox)
  | d, _, _, [] => .ok (d, [])
  | d, maxChildHeight, prev, child :: rest => do
    let (d, maxChildHeight, child) ← layoutChildStep recur d maxChildHeight prev child
    let (d, rest') ← layoutChildrenAux recur d maxChildHeight child.boxType rest
    pure (d, child :: rest')
termination_by structural _ _ _ kids => kids

/-- `LayoutBox::layout` from `layout.rs` (lines 63-77, 217-222), with
fuel: Block and Inline boxes run the block algorithm (width, position,
children, height), InlineBlock the inline-block algorithm, Anonymous boxes
do nothing. -/
def layoutF : Nat → LayoutBox → Dimensions → Except LayoutErr LayoutBox
  | 0, _, _ => .error .outOfFuel
  | fuel + 1, .mk d bt s kids, bBox =>
    match bt with
    | .anonymous => .ok (.mk d bt s kids)
    | .inlineBlock => do
      let d ← calculateInlineWidth s d bBox
      let d := calculateInlinePos s d bBox
      let (d, kids) ← layoutChildrenAux (layoutF fuel) d 0 .block kids
      let d := calculateHeight s d
      pure (.mk d bt s kids)
    | _ => do
      let d ← calculateWidth s d bBox
      let d := calculatePos s d bBox
      let (d, kids) ← layoutChildrenAux (layoutF fuel) d 0 .block kids
      let d := calculateHeight s d
      pure (.mk d bt s kids)

mutual
/-- Tree height of a layout box: the fuel needed by `layoutF`. -/
def heightLB : LayoutBox → Nat
  | .mk _ _ _ kids => heightLBList kids + 1
/-- Tree height over a list of layout boxes. -/
def heightLBList : List LayoutBox → Nat
  | [] => 0
  | k :: ks => max (heightLB k) (heightLBList ks)
end

mutual
/-- `build_layout_tree` from `layout.rs` (lines 359-380): mirror the
styled tree, mapping display to box type (None maps to Anonymous), and
omit children whose display is None together with their subtrees. -/
def buildLayoutTree : StyledNode → LayoutBox
  | .mk props disp kids =>
    .mk Dimensions.default
      (match disp with
        | .block => .block
        | .inline => .inline
        | .inlineBlock => .inlineBlock
        | .none => .anonymous)
      (.mk props disp kids)
      (buildKids kids)
/-- The child loop of `build_layout_tree` (`layout.rs` lines 370-377):
push a box for each child unless its display is None. -/
def buildKids : List StyledNode → List LayoutBox
  | [] => []
  | c :: cs =>
    (match c.display with
      | .none => []
      | _ => [buildLayoutTree c]) ++ buildKids cs
end

/-- `layout_tree` from `layout.rs` (lines 350-357): reset the containing
block's content height to 0, build the layout tree, and lay it out, with
fuel sufficient for the built tree. -/
def layoutTree (root : StyledNode) (containingBlock : Dimensions) :
    Except LayoutErr LayoutBox :=
  let cb := { containingBlock with content.height := 0 }
  let rootBox := buildLayoutTree root
  layoutF (heightLB rootBox) rootBox cb

/-! ## Auxiliary definitions used by the theorems -/

mutual
/-- The styled nodes referenced by the boxes of a layout tree, in
preorder. -/
def boxNodes : LayoutBox → List StyledNode
  | .mk _ _ s kids => s :: boxNodesList kids
/-- The styled nodes referenced by a list of layout trees, in order. -/
def boxNodesList : List LayoutBox → List StyledNode
  | [] => []
  | k :: ks => boxNodes k ++ boxNodesList ks
end

mutual
/-- Spec-side pruning (from the amended display-none claim): the preorder
list of styled nodes that should be mirrored — the root unconditionally,
and below it every node, in source order, except that a non-root node with
resolved display None is omitted together with its entire subtree. -/
def prunedPre : StyledNode → List StyledNode
  | .mk props disp kids => .mk props disp kids :: prunedKidsList kids
/-- Spec-side pruning of a child list: a child with display None
contributes nothing, any other child contributes its pruned preorder. -/
def prunedKidsList : List StyledNode → List StyledNode
  | [] => []
  | c :: cs =>
    (match c.display with
      | .none => []
      | _ => prunedPre c) ++ prunedKidsList cs
end

/-! ## Basic parser lemmas -/

theorem consumeWhile_rest_le (p : Char → Bool) :
    ∀ l : List Char, (consumeWhile p l).2.length ≤ l.length
  | [] => by simp [consumeWhile]
  | c :: cs => by
    have ih := consumeWhile_rest_le p cs
    rcases hcw : consumeWhile p cs with ⟨t, r⟩
    rw [hcw] at ih
    simp at ih
    by_cases h : p c <;> simp [consumeWhile, h, hcw]
    omega

theorem consumeWhile_cons_lt (p : Char → Bool) (c : Char) (cs : List Char)
    (h : p c = true) :
    (consumeWhile p (c :: cs)).2.length < (c :: cs).length := by
  have ih := consumeWhile_rest_le p cs
  rcases hcw : consumeWhile p cs with ⟨t, r⟩
  rw [hcw] at ih
  simp at ih
  simp [consumeWhile, h, hcw]
  omega

theorem consumeWhile_head_false (p : Char → Bool) (c : Char) (cs : List Char)
    (h : p c = false) :
    consumeWhile p (c :: cs) = ([], c :: cs) := by
  simp [consumeWhile, h]

theorem parseIdentifier_rest_le (l : List Char) :
    (parseIdentifier l).2.length ≤ l.length := by
  match l with
  | [] => simp [parseIdentifier]
  | c :: cs =>
    by_cases h : isValidStartIndent c
    · have hle := consumeWhile_rest_le isValidIndent (c :: cs)
      rcases hcw : consumeWhile isValidIndent (c :: cs) with ⟨t, r⟩
      rw [hcw] at hle
      simp at hle
      simp [parseIdentifier, h, hcw]
      exact hle
    · simp [parseIdentifier, h]

theorem isValidIndent_of_start {c : Char} (h : isValidStartIndent c = true) :
    isValidIndent c = true := by
  unfold isValidStartIndent at h
  unfold isValidIndent
  rcases Bool.or_eq_true_iff.1 h with ha | he
  · simp [Char.isAlphanum, ha]
  · simp [he]

theorem parseIdentifier_cons_lt (c : Char) (cs : List Char)
    (h : isValidStartIndent c = true) :
    (parseIdentifier (c :: cs)).2.length < (c :: cs).length := by
  have hlt := consumeWhile_cons_lt isValidIndent c cs (isValidIndent_of_start h)
  rcases hcw : consumeWhile isValidIndent (c :: cs) with ⟨t, r⟩
  rw [hcw] at hlt
  simp at hlt
  simp [parseIdentifier, h, hcw]
  exact hlt

theorem parseId_rest_eq (l : List Char) : (parseId l).2 = (parseIdentifier l).2 := by
  unfold parseId
  rcases hpi : parseIdentifier l with ⟨s, r⟩
  cases s <;> simp

theorem parseId_rest_le (l : List Char) : (parseId l).2.length ≤ l.length := by
  rw [parseId_rest_eq]
  exact parseIdentifier_rest_le l

theorem consumeWhile_exact (p : Char → Bool) :
    ∀ (s rest : List Char), (∀ c ∈ s, p c = true) →
      (∀ c cs, rest = c :: cs → p c = false) →
      consumeWhile p (s ++ rest) = (s, rest)
  | [], rest, _, hrest => by
    cases rest with
    | nil => rfl
    | cons c cs => simp [consumeWhile, hrest c cs rfl]
  | a :: s, rest, hs, hrest => by
    have ha : p a = true := hs a (by simp)
    have ih := consumeWhile_exact p s rest (fun c hc => hs c (by simp [hc])) hrest
    simp [consumeWhile, ha, ih]

theorem isValidIndent_stop {c : Char}
    (h : (c = ',' ∨ c = '{') ∨ c.isWhitespace = true) :
    isValidIndent c = false := by
  rcases h with (h | h) | h
  · subst h; decide
  · subst h; decide
  · simp only [Char.isWhitespace, Bool.or_eq_true, decide_eq_true_eq] at h
    rcases h with ((h | h) | h) | h <;> (rw [h]; decide)

theorem renderToks_stop_head (ts : List SelToken) (stop : List Char)
    (hstop : stopOk stop = true) :
    ∀ c cs, renderToks ts ++ stop = c :: cs → isValidIndent c = false := by
  intro c cs h
  cases ts with
  | nil =>
    simp only [renderToks, List.nil_append] at h
    rw [h] at hstop
    simp only [stopOk, Bool.or_eq_true, decide_eq_true_eq] at hstop
    exact isValidIndent_stop hstop
  | cons t ts =>
    cases t with
    | idTok s =>
      simp only [renderToks, SelToken.render, List.cons_append] at h
      injection h with h1 h2
      subst h1; decide
    | clsTok s =>
      simp only [renderToks, SelToken.render, List.cons_append] at h
      injection h with h1 h2
      subst h1; decide

theorem parseIdentifier_exact (s rest : List Char) (hs : identOk s = true)
    (hrest : ∀ c cs, rest = c :: cs → isValidIndent c = false) :
    parseIdentifier (s ++ rest) = (s.map Char.toLower, rest) := by
  cases s with
  | nil => simp [identOk] at hs
  | cons a s =>
    simp only [identOk, Bool.and_eq_true, List.all_eq_true] at hs
    obtain ⟨hstart, hall⟩ := hs
    have hcw := consumeWhile_exact isValidIndent (a :: s) rest hall hrest
    rw [List.cons_append] at hcw ⊢
    simp [parseIdentifier, hstart, hcw]

theorem parseId_exact (s rest : List Char) (hs : identOk s = true)
    (hrest : ∀ c cs, rest = c :: cs → isValidIndent c = false) :
    parseId (s ++ rest) = (some (String.mk (s.map Char.toLower)), rest) := by
  have hpi := parseIdentifier_exact s rest hs hrest
  cases s with
  | nil => simp [identOk] at hs
  | cons a s =>
    rw [List.cons_append] at hpi
    simp [parseId, hpi]

/-- Running the selector token loop over a run of well-formed tokens
followed by a stopping suffix computes exactly the `selFold` state: the
final id and flag, the collected lowercased classes appended to the
starting classes, and the untouched stopping suffix. -/
theorem selLoopF_toks :
    ∀ (ts : List SelToken) (fuel : Nat) (ss : SimpleSelector) (m : Bool)
      (stop : List Char),
      ts.length < fuel →
      (∀ t ∈ ts, identOk t.payload = true) →
      stopOk stop = true →
      selLoopF fuel ss m (renderToks ts ++ stop) =
        some (⟨ss.tagName, (selFold ss.id m ts).1,
               ss.classes ++ (selFold ss.id m ts).2.2⟩,
              (selFold ss.id m ts).2.1, stop)
  | ts, 0, _, _, _, hfuel, _, _ => absurd hfuel (by omega)
  | [], fuel + 1, ss, m, stop, _, _, hstop => by
    cases stop with
    | nil =>
      rw [renderToks, List.nil_append, selLoopF]
      simp [selFold]
    | cons c cs =>
      simp only [stopOk, Bool.or_eq_true, decide_eq_true_eq] at hstop
      have hstop' : c = ',' ∨ c = '{' ∨ c.isWhitespace = true := by tauto
      rw [renderToks, List.nil_append, selLoopF]
      rw [if_pos hstop']
      simp [selFold]
  | .idTok s :: ts, fuel + 1, ss, m, stop, hfuel, hok, hstop => by
    have hids : identOk s = true := by
      simpa [SelToken.payload] using hok (.idTok s) (by simp)
    have hrest := renderToks_stop_head ts stop hstop
    have hpid := parseId_exact s (renderToks ts ++ stop) hids hrest
    have hfuel' : ts.length < fuel := by simp at hfuel; omega
    have hok' : ∀ t ∈ ts, identOk t.payload = true :=
      fun t ht => hok t (by simp [ht])
    rw [renderToks, SelToken.render]
    simp only [List.cons_append, List.append_assoc]
    rw [selLoopF]
    simp only [if_neg (by decide : ¬(('#' : Char) = ',' ∨ ('#' : Char) = '{' ∨
      ('#' : Char).isWhitespace = true)), if_pos rfl]
    by_cases hcase : (ss.id.isSome || m) = true
    · simp only [hcase, if_true, hpid]
      rw [selLoopF_toks ts fuel _ true stop hfuel' hok' hstop]
      simp [selFold, hcase]
    · simp only [hcase, if_false, Bool.false_eq_true, hpid]
      rw [selLoopF_toks ts fuel _ m stop hfuel' hok' hstop]
      simp only [Bool.not_eq_true] at hcase
      simp [selFold, hcase]
  | .clsTok s :: ts, fuel + 1, ss, m, stop, hfuel, hok, hstop => by
    have hids : identOk s = true := by
      simpa [SelToken.payload] using hok (.clsTok s) (by simp)
    have hrest := renderToks_stop_head ts stop hstop
    have hpi := parseIdentifier_exact s (renderToks ts ++ stop) hids hrest
    have hfuel' : ts.length < fuel := by simp at hfuel; omega
    have hok' : ∀ t ∈ ts, identOk t.payload = true :=
      fun t ht => hok t (by simp [ht])
    have hne : s.map Char.toLower ≠ [] := by
      cases s with
      | nil => simp [identOk] at hids
      | cons a s => simp
    rw [renderToks, SelToken.render]
    simp only [List.cons_append, List.append_assoc]
    rw [selLoopF]
    simp only [if_neg (by decide : ¬(('.' : Char) = ',' ∨ ('.' : Char) = '{' ∨
      ('.' : Char).isWhitespace = true)),
      if_neg (by decide : ¬(('.' : Char) = '#')), if_pos rfl, hpi]
    simp only [if_pos hne]
    rw [selLoopF_toks ts fuel _ m stop hfuel' hok' hstop]
    simp [selFold, List.append_assoc]

theorem selFold_absorb : ∀ ts : List SelToken,
    (selFold none true ts).1 = none ∧ (selFold none true ts).2.1 = true
  | [] => ⟨rfl, rfl⟩
  | .idTok s :: ts => by simp [selFold, selFold_absorb ts]
  | .clsTok s :: ts => by simp [selFold, selFold_absorb ts]

theorem selFold_inval : ∀ (ts : List SelToken) (x : String), 1 ≤ countId ts →
    (selFold (some x) false ts).1 = none ∧ (selFold (some x) false ts).2.1 = true
  | [], x, h => by simp [countId] at h
  | .idTok s :: ts, x, _ => by
    simp only [selFold, Option.isSome_some, Bool.true_or, if_true]
    exact selFold_absorb ts
  | .clsTok s :: ts, x, h => by
    have h' : 1 ≤ countId ts := by simpa [countId, List.filter_cons] using h
    simp [selFold, selFold_inval ts x h']

theorem selFold_two : ∀ ts : List SelToken, 2 ≤ countId ts →
    (selFold none false ts).1 = none ∧ (selFold none false ts).2.1 = true
  | [], h => by simp [countId] at h
  | .idTok s :: ts, h => by
    have h' : 1 ≤ countId ts := by
      simp [countId, List.filter_cons] at h ⊢; omega
    simp only [selFold, Option.isSome_none, Bool.false_or, if_false, Bool.false_eq_true]
    exact selFold_inval ts _ h'
  | .clsTok s :: ts, h => by
    have h' : 2 ≤ countId ts := by simpa [countId, List.filter_cons] using h
    simp [selFold, selFold_two ts h']

theorem selFold_classes : ∀ (ts : List SelToken) (i : Option String) (m : Bool),
    (selFold i m ts).2.2 = classList ts
  | [], i, m => rfl
  | .idTok s :: ts, i, m => by
    by_cases h : (i.isSome || m) = true
    · simp [selFold, h, classList, List.filterMap_cons, selFold_classes ts,
        classList]
    · simp only [Bool.not_eq_true] at h
      simp [selFold, h, classList, List.filterMap_cons, selFold_classes ts]
  | .clsTok s :: ts, i, m => by
    simp [selFold, classList, List.filterMap_cons, selFold_classes ts]

/-- Totality of the selector token loop: with fuel exceeding the input
length the loop returns, never lengthens the input, and — when the next
character does not stop the loop — strictly consumes. -/
theorem selLoopF_total :
    ∀ (fuel : Nat) (ss : SimpleSelector) (m : Bool) (input : List Char),
      input.length < fuel →
      ∃ ss' m' r, selLoopF fuel ss m input = some (ss', m', r) ∧
        r.length ≤ input.length ∧
        (∀ c cs, input = c :: cs → ¬(c = ',' ∨ c = '{' ∨ c.isWhitespace = true) →
          r.length < input.length)
  | 0, ss, m, input, h => absurd h (by omega)
  | fuel + 1, ss, m, [], h => by
    refine ⟨ss, m, [], ?_, le_rfl, ?_⟩
    · rw [selLoopF]
    · intro c cs hcs; cases hcs
  | fuel + 1, ss, m, c :: cs, h => by
    by_cases hstop : c = ',' ∨ c = '{' ∨ c.isWhitespace = true
    · refine ⟨ss, m, c :: cs, ?_, le_rfl, ?_⟩
      · rw [selLoopF, if_pos hstop]
      · intro c' cs' hcs hstop'
        cases hcs
        exact absurd hstop hstop'
    · by_cases hhash : c = '#'
      · have hple := parseId_rest_le cs
        rcases hpid : parseId cs with ⟨i, r1⟩
        rw [hpid] at hple
        simp at hple
        have hr1 : r1.length < fuel := by simp at h; omega
        by_cases hid : (ss.id.isSome || m) = true
        · obtain ⟨ss', m', r, hrec, hle, _⟩ :=
            selLoopF_total fuel { ss with id := none } true r1 hr1
          refine ⟨ss', m', r, ?_, ?_, ?_⟩
          · rw [selLoopF, if_neg hstop, if_pos hhash, if_pos hid, hpid]
            exact hrec
          · simp; omega
          · intro c' cs' hcs _; cases hcs; simp; omega
        · obtain ⟨ss', m', r, hrec, hle, _⟩ :=
            selLoopF_total fuel { ss with id := i } m r1 hr1
          refine ⟨ss', m', r, ?_, ?_, ?_⟩
          · rw [selLoopF, if_neg hstop, if_pos hhash, if_neg hid, hpid]
            exact hrec
          · simp; omega
          · intro c' cs' hcs _; cases hcs; simp; omega
      · by_cases hdot : c = '.'
        · have hple := parseIdentifier_rest_le cs
          rcases hpi : parseIdentifier cs with ⟨cls, r1⟩
          rw [hpi] at hple
          simp at hple
          have hr1 : r1.length < fuel := by simp at h; omega
          by_cases hcls : cls = []
          · obtain ⟨ss', m', r, hrec, hle, _⟩ := selLoopF_total fuel ss m r1 hr1
            refine ⟨ss', m', r, ?_, ?_, ?_⟩
            · rw [selLoopF, if_neg hstop, if_neg hhash, if_pos hdot, hpi]
              simp only [hcls]
              simpa using hrec
            · simp; omega
            · intro c' cs' hcs _; cases hcs; simp; omega
          · obtain ⟨ss', m', r, hrec, hle, _⟩ := selLoopF_total fuel
              { ss with classes := ss.classes ++ [String.mk cls] } m r1 hr1
            refine ⟨ss', m', r, ?_, ?_, ?_⟩
            · rw [selLoopF, if_neg hstop, if_neg hhash, if_pos hdot, hpi]
              simp only [hcls, if_neg]
              simpa [hcls] using hrec
            · simp; omega
            · intro c' cs' hcs _; cases hcs; simp; omega
        · have hlt : (consumeWhile (fun x => x ≠ ',' && x ≠ '{') (c :: cs)).2.length <
              (c :: cs).length := by
            apply consumeWhile_cons_lt
            simp only [Bool.and_eq_true, decide_eq_true_eq]
            push_neg at hstop
            exact ⟨by simpa using hstop.1, by simpa using hstop.2.1⟩
          rcases hcw : consumeWhile (fun x => x ≠ ',' && x ≠ '{') (c :: cs) with ⟨t, r1⟩
          rw [hcw] at hlt
          simp at hlt
          have hr1 : r1.length < fuel := by simp at h ⊢; omega
          obtain ⟨ss', m', r, hrec, hle, _⟩ := selLoopF_total fuel ss m r1 hr1
          refine ⟨ss', m', r, ?_, ?_, ?_⟩
          · rw [selLoopF, if_neg hstop, if_neg hhash, if_neg hdot, hcw]
            exact hrec
          · simp at hlt ⊢; omega
          · intro c' cs' hcs _; cases hcs; simp at hlt ⊢; omega

/-- Totality of `parse_selector`: with fuel exceeding the input length it
returns and never lengthens the input. -/
theorem parseSelectorF_total (fuel : Nat) (input : List Char) (h : input.length < fuel) :
    ∃ sel r, parseSelectorF fuel input = some (sel, r) ∧ r.length ≤ input.length := by
  unfold parseSelectorF
  have h0le := consumeWhile_rest_le Char.isWhitespace input
  rcases h0 : consumeWhile Char.isWhitespace input with ⟨w0, r0⟩
  rw [h0] at h0le; simp at h0le
  simp only [h0]
  match hr0 : r0 with
  | [] =>
    obtain ⟨ss', m', r, hsel, hle, _⟩ :=
      selLoopF_total fuel ⟨none, none, []⟩ false [] (by omega)
    simp only [SimpleSelector.default]
    rw [hsel]
    exact ⟨_, r, rfl, by simp at hle; simp [hle]⟩
  | c0 :: cs0 =>
    simp at h0le
    by_cases hvs : isValidStartIndent c0
    · have hile := parseIdentifier_rest_le (c0 :: cs0)
      rcases hpi : parseIdentifier (c0 :: cs0) with ⟨t, r1⟩
      rw [hpi] at hile; simp at hile
      simp only [hvs, if_true, hpi, SimpleSelector.default]
      obtain ⟨ss', m', r, hsel, hle, _⟩ := selLoopF_total fuel
        ⟨some (String.mk t), none, []⟩ false r1 (by omega)
      rw [hsel]
      exact ⟨_, r, rfl, by omega⟩
    · simp [hvs, SimpleSelector.default]
      obtain ⟨ss', m', r, hsel, hle, _⟩ := selLoopF_total fuel
        ⟨none, none, []⟩ false (c0 :: cs0) (by simp; omega)
      rw [hsel]
      exact ⟨_, r, rfl, by simp at hle; omega⟩

/-- Progress of `parse_selector`: facing anything but `{`, it either
strictly consumes or leaves the input untouched with a comma in front,
which the selector-list loop then consumes. -/
theorem parseSelectorF_progress (fuel : Nat) (c : Char) (cs : List Char)
    (hbrace : ¬c = '{') (h : (c :: cs).length < fuel) :
    ∃ sel r, parseSelectorF fuel (c :: cs) = some (sel, r) ∧
      (r.length < (c :: cs).length ∨ (c = ',' ∧ r = c :: cs)) := by
  have hfuel : cs.length + 1 < fuel := by simpa using h
  unfold parseSelectorF
  by_cases hws : c.isWhitespace = true
  · have h0lt := consumeWhile_cons_lt Char.isWhitespace c cs hws
    have h0le := consumeWhile_rest_le Char.isWhitespace (c :: cs)
    rcases h0 : consumeWhile Char.isWhitespace (c :: cs) with ⟨w0, r0⟩
    rw [h0] at h0lt h0le; simp at h0lt h0le
    simp only [h0]
    match hr0 : r0 with
    | [] =>
      obtain ⟨ss', m', r, hsel, hle, _⟩ :=
        selLoopF_total fuel ⟨none, none, []⟩ false [] (by omega)
      simp only [SimpleSelector.default]
      rw [hsel]
      refine ⟨_, r, rfl, Or.inl ?_⟩
      simp at hle; simp [hle]
    | c0 :: cs0 =>
      simp at h0lt h0le
      by_cases hvs : isValidStartIndent c0
      · have hile := parseIdentifier_rest_le (c0 :: cs0)
        rcases hpi : parseIdentifier (c0 :: cs0) with ⟨t, r1⟩
        rw [hpi] at hile; simp at hile
        simp only [hvs, if_true, hpi, SimpleSelector.default]
        obtain ⟨ss', m', r, hsel, hle, _⟩ := selLoopF_total fuel
          ⟨some (String.mk t), none, []⟩ false r1 (by omega)
        rw [hsel]
        exact ⟨_, r, rfl, Or.inl (by simp; omega)⟩
      · simp [hvs, SimpleSelector.default]
        obtain ⟨ss', m', r, hsel, hle, _⟩ := selLoopF_total fuel
          ⟨none, none, []⟩ false (c0 :: cs0) (by simp; omega)
        rw [hsel]
        exact ⟨_, r, rfl, Or.inl (by simp at hle; omega)⟩
  · have h0 := consumeWhile_head_false Char.isWhitespace c cs (by simpa using hws)
    simp only [h0]
    by_cases hvs : isValidStartIndent c
    · have hilt := parseIdentifier_cons_lt c cs hvs
      rcases hpi : parseIdentifier (c :: cs) with ⟨t, r1⟩
      rw [hpi] at hilt; simp at hilt
      simp only [hvs, if_true, hpi, SimpleSelector.default]
      obtain ⟨ss', m', r, hsel, hle, _⟩ := selLoopF_total fuel
        ⟨some (String.mk t), none, []⟩ false r1 (by omega)
      rw [hsel]
      exact ⟨_, r, rfl, Or.inl (by simp; omega)⟩
    · simp [hvs, SimpleSelector.default]
      by_cases hcomma : c = ','
      · match fuel, h with
        | fuel + 1, h =>
          rw [selLoopF, if_pos (Or.inl hcomma)]
          exact ⟨_, c :: cs, rfl, Or.inr ⟨hcomma, rfl⟩⟩
      · have hstop : ¬(c = ',' ∨ c = '{' ∨ c.isWhitespace = true) := by
          push_neg
          exact ⟨hcomma, hbrace, by simpa using hws⟩
        obtain ⟨ss', m', r, hsel, hle, hstrict⟩ := selLoopF_total fuel
          ⟨none, none, []⟩ false (c :: cs) (by omega)
        rw [hsel]
        exact ⟨_, r, rfl, Or.inl (hstrict c cs rfl hstop)⟩

theorem commaSkip_le (r : List Char) : (commaSkip r).length ≤ r.length := by
  unfold commaSkip
  split
  · simp
  · exact le_rfl

/-- Totality and progress of the selector-list loop of `parse_selectors`:
with fuel exceeding the input length it returns, never lengthens the
input, and on nonempty input strictly consumes (each iteration consumes at
least one character, and the loop exit consumes the `{`). -/
theorem parseSelectorsLoopF_total :
    ∀ (fuel : Nat) (acc : List Selector) (input : List Char), input.length < fuel →
      ∃ sels r, parseSelectorsLoopF fuel acc input = some (sels, r) ∧
        r.length ≤ input.length ∧ (input ≠ [] → r.length < input.length)
  | 0, _, _, h => absurd h (by omega)
  | fuel + 1, acc, [], _ => by
    refine ⟨acc, [], ?_, le_rfl, fun hne => absurd rfl hne⟩
    rw [parseSelectorsLoopF]
  | fuel + 1, acc, c :: cs, h => by
    by_cases hbrace : c = '{'
    · subst hbrace
      refine ⟨acc, cs, ?_, by simp, fun _ => by simp⟩
      rw [parseSelectorsLoopF]
      simp
    · obtain ⟨sel, r1, hsel, hd⟩ := parseSelectorF_progress (fuel + 1) c cs hbrace h
      have h2le := consumeWhile_rest_le Char.isWhitespace r1
      rcases h2 : consumeWhile Char.isWhitespace r1 with ⟨w2, r2⟩
      rw [h2] at h2le; simp at h2le
      have hr3le : (commaSkip r2).length ≤ r2.length := commaSkip_le r2
      have hr3lt : (commaSkip r2).length < (c :: cs).length := by
        rcases hd with hlt | ⟨hc, hr1⟩
        · omega
        · subst hr1
          subst hc
          rw [consumeWhile_head_false Char.isWhitespace ',' cs (by decide)] at h2
          simp at h2
          obtain ⟨hw2, hr2⟩ := h2
          rw [← hr2, commaSkip]
          simp
      obtain ⟨sels, r, hrec, hle, _⟩ := parseSelectorsLoopF_total fuel
        (if sel = Selector.default then acc else acc ++ [sel]) (commaSkip r2)
        (by omega)
      refine ⟨sels, r, ?_, by omega, fun _ => by omega⟩
      rw [parseSelectorsLoopF]
      simp only [hbrace, if_false, hsel, h2]
      exact hrec

theorem parseOneDeclaration_lt (c : Char) (cs : List Char) :
    (parseOneDeclaration (c :: cs)).2.length < (c :: cs).length := by
  unfold parseOneDeclaration
  have h0le := consumeWhile_rest_le Char.isWhitespace (c :: cs)
  rcases h0 : consumeWhile Char.isWhitespace (c :: cs) with ⟨w0, r0⟩
  rw [h0] at h0le; simp at h0le
  have h1le := consumeWhile_rest_le (fun x => x ≠ ':') r0
  rcases h1 : consumeWhile (fun x => x ≠ ':') r0 with ⟨prop, r1⟩
  rw [h1] at h1le; simp at h1le
  have h3le := consumeWhile_rest_le Char.isWhitespace r1.tail
  rcases h3 : consumeWhile Char.isWhitespace r1.tail with ⟨w3, r3⟩
  rw [h3] at h3le; simp at h3le
  have h4le := consumeWhile_rest_le (fun x => x ≠ ';' && x ≠ '\n' && x ≠ '}') r3
  rcases h4 : consumeWhile (fun x => x ≠ ';' && x ≠ '\n' && x ≠ '}') r3 with ⟨v, r4⟩
  rw [h4] at h4le; simp at h4le
  -- the strict step: leading whitespace, the property run, or the dropped colon
  have hr2lt : r1.length - 1 < cs.length + 1 := by
    by_cases hws : c.isWhitespace = true
    · have hlt := consumeWhile_cons_lt Char.isWhitespace c cs hws
      rw [h0] at hlt; simp at hlt
      omega
    · rw [consumeWhile_head_false Char.isWhitespace c cs (by simpa using hws)] at h0
      simp at h0
      obtain ⟨hw0, hr0⟩ := h0
      subst hr0
      by_cases hcolon : c = ':'
      · have hp : (fun x => decide (x ≠ ':')) c = false := by simp [hcolon]
        rw [consumeWhile_head_false (fun x => decide (x ≠ ':')) c cs hp] at h1
        simp at h1
        obtain ⟨hp1, hr1⟩ := h1
        rw [← hr1]
        simp
      · have hp : (fun x => decide (x ≠ ':')) c = true := by simp [hcolon]
        have hlt := consumeWhile_cons_lt (fun x => decide (x ≠ ':')) c cs hp
        rw [h1] at hlt; simp at hlt
        omega
  simp only [h0, h1, h3, h4]
  split
  · rename_i t
    simp at h4le
    have h5le := consumeWhile_rest_le Char.isWhitespace t
    rcases h5 : consumeWhile Char.isWhitespace t with ⟨w5, r5⟩
    rw [h5] at h5le; simp at h5le
    simp only [h5]
    simp
    omega
  · have h5le := consumeWhile_rest_le Char.isWhitespace r4
    rcases h5 : consumeWhile Char.isWhitespace r4 with ⟨w5, r5⟩
    rw [h5] at h5le; simp at h5le
    simp only [h5]
    split
    · rename_i rest5
      simp at h5le
      have h6le := consumeWhile_rest_le Char.isWhitespace ('}' :: rest5)
      rcases h6 : consumeWhile Char.isWhitespace ('}' :: rest5) with ⟨w6, r6⟩
      rw [h6] at h6le; simp at h6le
      simp only [h6]
      simp
      omega
    · simp
      omega

/-- Totality of the declaration loop of `parse_declarations`: with fuel
exceeding the input length it returns and never lengthens the input (each
iteration consumes at least one character). -/
theorem parseDeclarationsLoopF_total :
    ∀ (fuel : Nat) (acc : List Declaration) (input : List Char), input.length < fuel →
      ∃ ds r, parseDeclarationsLoopF fuel acc input = some (ds, r) ∧ r.length ≤ input.length
  | 0, _, _, h => absurd h (by omega)
  | fuel + 1, acc, [], _ => by
    refine ⟨acc, [], ?_, le_rfl⟩
    rw [parseDeclarationsLoopF]
  | fuel + 1, acc, c :: cs, h => by
    by_cases hc : c = '}'
    · subst hc
      refine ⟨acc, cs, ?_, by simp⟩
      rw [parseDeclarationsLoopF]
      simp
    · have hlt := parseOneDeclaration_lt c cs
      rcases hpd : parseOneDeclaration (c :: cs) with ⟨dec, rest⟩
      rw [hpd] at hlt; simp at hlt
      obtain ⟨ds, r, hrec, hle⟩ :=
        parseDeclarationsLoopF_total fuel (acc ++ dec.toList) rest (by simp at h ⊢; omega)
      refine ⟨ds, r, ?_, by simp at hlt ⊢; omega⟩
      rw [parseDeclarationsLoopF]
      simp only [hc, if_false, hpd]
      exact hrec

/-- Totality of `parse_stylesheet`: with fuel exceeding the input length
the rule loop returns (each rule consumes at least one character). -/
theorem parseStylesheetF_total :
    ∀ (fuel : Nat) (acc : List Rule) (input : List Char), input.length < fuel →
      (parseStylesheetF fuel acc input).isSome = true
  | 0, _, _, h => absurd h (by omega)
  | fuel + 1, acc, [], _ => by rw [parseStylesheetF]; rfl
  | fuel + 1, acc, c :: cs, h => by
    obtain ⟨sels, r1, hsels, hr1le, hr1lt⟩ :=
      parseSelectorsLoopF_total (fuel + 1) [] (c :: cs) h
    have hr1lt := hr1lt (by simp)
    obtain ⟨ds, r2, hds, hr2le⟩ :=
      parseDeclarationsLoopF_total (fuel + 1) [] r1 (by omega)
    rw [parseStylesheetF]
    simp only [hsels, hds]
    exact parseStylesheetF_total fuel (acc ++ [⟨sels, ds⟩]) r2 (by simp at h hr1lt; omega)

/-- C8: For every finite input string, stylesheet parsing terminates and returns
a `Stylesheet` without raising any error. The fuel `s.data.length + 1` given to
the rule loop always suffices: on a nonempty input each iteration of the
selector loop strictly consumes input, and `parse_one_declaration` (one
iteration of the declaration loop) also strictly consumes its nonempty input,
so the rule loop's remaining input shrinks at every step and the parse is total
for every string, malformed or not. -/
theorem C8_parse_stylesheet_total :
    (∀ s : String, ∃ sheet, parseStylesheet s = some sheet) ∧
    (∀ acc c cs, ∃ sels r,
        parseSelectorsLoopF ((c :: cs).length + 1) acc (c :: cs) = some (sels, r) ∧
          r.length < (c :: cs).length) ∧
    (∀ c cs, (parseOneDeclaration (c :: cs)).2.length < (c :: cs).length) := by
  refine ⟨?_, ?_, parseOneDeclaration_lt⟩
  · intro s
    have h := parseStylesheetF_total (s.data.length + 1) [] s.data (by omega)
    unfold parseStylesheet
    rcases hx : parseStylesheetF (s.data.length + 1) [] s.data with _ | rules
    · rw [hx] at h; simp at h
    · exact ⟨⟨rules⟩, rfl⟩
  · intro acc c cs
    obtain ⟨sels, r, hsels, _, hlt⟩ :=
      parseSelectorsLoopF_total ((c :: cs).length + 1) acc (c :: cs) (by omega)
    exact ⟨sels, r, hsels, hlt (by simp)⟩

/-- C7: For every selector text consisting of well-formed `#id`/`.class`
tokens with two or more `#id` tokens, followed by a terminator (`,`, `{`,
whitespace or end of input), the token loop of `parse_selector` produces a
simple selector whose id is absent — the second `#id` clears the stored id,
latches the `multiple_ids` flag, and is not stored itself — while every
`.class` token, including those after the invalidation, is collected in
order (lowercased).  In particular `"#a#b.c { }"` parses to a stylesheet
whose only simple selector has no id and classes `["c"]`. -/
theorem C7_multiple_ids_invalidated :
    (∀ (ts : List SelToken) (stop : List Char) (fuel : Nat) (tag : Option String),
      ts.length < fuel →
      (∀ t ∈ ts, identOk t.payload = true) →
      stopOk stop = true →
      2 ≤ countId ts →
      selLoopF fuel ⟨tag, none, []⟩ false (renderToks ts ++ stop) =
        some (⟨tag, none, classList ts⟩, true, stop)) ∧
    parseStylesheet "#a#b.c { }" = some ⟨[⟨[⟨[⟨none, none, ["c"]⟩], []⟩], []⟩]⟩ := by
  constructor
  · intro ts stop fuel tag hfuel hok hstop h2
    have hmain := selLoopF_toks ts fuel ⟨tag, none, []⟩ false stop hfuel hok hstop
    obtain ⟨h1, hflag⟩ := selFold_two ts h2
    rw [hmain]
    simp [h1, hflag, selFold_classes]
  · decide

/-- Witness for C7 at the token run `#a#b.c` followed by `" {"`. -/
theorem C7_multiple_ids_invalidated_witness :
    (2 ≤ countId [SelToken.idTok ['a'], SelToken.idTok ['b'], SelToken.clsTok ['c']]) ∧
    selLoopF 4 ⟨none, none, []⟩ false
        (renderToks [SelToken.idTok ['a'], SelToken.idTok ['b'], SelToken.clsTok ['c']]
          ++ [' ', '{']) =
      some (⟨none, none, ["c"]⟩, true, [' ', '{']) :=
  ⟨by decide,
    (C7_multiple_ids_invalidated.1
      [SelToken.idTok ['a'], SelToken.idTok ['b'], SelToken.clsTok ['c']]
      [' ', '{'] 4 none (by decide) (by decide) (by decide) (by decide)).trans
      (by decide)⟩

theorem translateLengthSplit_false (l : List Char) :
    translateLengthSplit l false = ([], l) := by
  induction l with
  | nil => rfl
  | cons c cs ih => simp [translateLengthSplit, ih]

theorem translateLengthSplit_true (l : List Char) :
    translateLengthSplit l true = (l.takeWhile Char.isDigit, l.dropWhile Char.isDigit) := by
  induction l with
  | nil => rfl
  | cons c cs ih =>
    by_cases h : c.isDigit
    · simp [translateLengthSplit, h, ih, List.takeWhile_cons, List.dropWhile_cons]
    · simp [translateLengthSplit, h, translateLengthSplit_false, List.takeWhile_cons,
        List.dropWhile_cons]

/-! ## Theorems for the claims -/

/-- C6: Length value parsing splits the value left-to-right into a leading
contiguous digit run (the magnitude, defaulting to 0 when the run is
empty) and a remainder (the unit suffix, defaulting to `Px` when
unrecognized or empty, with `%` mapping to Percent): `"10"` gives
`Length(10, Px)`, `"50%"` gives `Length(50, Pct)`, `"abcpx"` gives
`Length(0, Px)`, and `"10px5"` gives `Length(10, Px)`. -/
theorem C6_translateLength_split :
    (∀ v : String,
      translateLengthSplit v.data true =
        (v.data.takeWhile Char.isDigit, v.data.dropWhile Char.isDigit)) ∧
    translateLength "10" = .length 10 .px ∧
    translateLength "50%" = .length 50 .pct ∧
    translateLength "abcpx" = .length 0 .px ∧
    translateLength "10px5" = .length 10 .px :=
  ⟨fun v => translateLengthSplit_true v.data, by decide, by decide, by decide, by decide⟩

/-- The parser types every `margin-*` (and other geometry) property through
`translate_length`, which always produces a `Length` value. -/
theorem valueForProperty_margin_is_length (prop : String)
    (h : prop = "margin-left" ∨ prop = "margin-right") (v : String) :
    ∃ n u, valueForProperty prop v = .length n u := by
  have hlen : ∃ n u, translateLength v = .length n u := by
    unfold translateLength
    split
    split <;> exact ⟨_, _, rfl⟩
  rcases h with h | h <;> subst h <;> simpa [valueForProperty] using hlen

/-- C9: in block width resolution the margin magnitudes are extracted only
from the raw-string `Other` variant — a typed `Length` (which is what the
parser produces for every `margin-*` property) or `Color` value
contributes `0.0` to the total/underflow — yet the declaration's presence
still selects the margin-resolution case: with `width: 10px` and a
declared `margin-left: 5px` (magnitude contribution 0), margin-right
absorbs the whole underflow of 90; with the margin-left declaration
absent, the underflow is split 45/45. -/
theorem C9_margin_magnitude_only_from_other :
    (∀ n u, marginNumOf (some (.length n u)) = 0) ∧
    (∀ c, marginNumOf (some (.color c)) = 0) ∧
    (∀ prop, (prop = "margin-left" ∨ prop = "margin-right") →
      ∀ v, ∃ n u, valueForProperty prop v = .length n u) ∧
    (calculateWidth
        (.mk [("width", .length 10 .px), ("margin-left", .length 5 .px)] .block [])
        Dimensions.default { Dimensions.default with content.width := 100 }).map
      (fun d => (d.margin.left, d.margin.right, d.content.width)) = .ok (0, 90, 10) ∧
    (calculateWidth
        (.mk [("width", .length 10 .px)] .block [])
        Dimensions.default { Dimensions.default with content.width := 100 }).map
      (fun d => (d.margin.left, d.margin.right, d.content.width)) = .ok (45, 45, 10) :=
  ⟨fun _ _ => rfl, fun _ => rfl, valueForProperty_margin_is_length,
    by with_unfolding_all rfl, by with_unfolding_all rfl⟩

/-- C9 witness: the theorem applied at `margin-left: 5px` and the margin
properties. -/
theorem C9_margin_magnitude_only_from_other_witness :
    marginNumOf (some (.length 5 .px)) = 0 ∧
    ∃ n u, valueForProperty "margin-left" "5px" = .length n u :=
  ⟨C9_margin_magnitude_only_from_other.1 5 .px,
    C9_margin_magnitude_only_from_other.2.2.1 "margin-left" (Or.inl rfl) "5px"⟩

/-- C5: for a containing block of content width `W ≥ 0` and a box with no
width declaration (auto), no margin declarations and no border or padding
declarations, block width resolution sets the content width to exactly
`W`: the whole underflow is absorbed by the content width.  (The absent
right border is read off the property name `"border-left-right"` that
`calculate_width` actually consults.) -/
theorem C5_auto_width_absorbs_underflow (s : StyledNode) (dIn bBox : Dimensions)
    (hw : s.value "width" = Option.none)
    (hml : s.value "margin-left" = Option.none)
    (hmr : s.value "margin-right" = Option.none)
    (hbl : s.value "border-left-width" = Option.none)
    (hbr : s.value "border-left-right" = Option.none)
    (hpl : s.value "padding-left" = Option.none)
    (hpr : s.value "padding-right" = Option.none)
    (hW : 0 ≤ bBox.content.width) :
    (calculateWidth s dIn bBox).map (fun d => d.content.width) = .ok bBox.content.width := by
  unfold calculateWidth getAbsNum StyledNode.numOr
  rw [hw, hml, hmr, hbl, hbr, hpl, hpr]
  simp only [marginNumOf, Bind.bind, Except.bind, Option.getD, Except.map, pure]
  norm_num [hW, Except.pure]

/-- C5 witness: a node with no declarations at all inside a containing
block of content width 100 resolves to content width 100. -/
theorem C5_auto_width_absorbs_underflow_witness :
    (calculateWidth (.mk [] .block []) Dimensions.default
        { Dimensions.default with content.width := 100 }).map
      (fun d => d.content.width) = .ok 100 :=
  C5_auto_width_absorbs_underflow _ _ _ rfl rfl rfl rfl rfl rfl rfl (by decide)

/-- C3 (code bug): `calculate_width` is meant to read the right border
width from `border-right-width`, but line 104 of `layout.rs` reads the
nonexistent property `"border-left-right"` instead — so a styled node
whose `border-right-width` resolves to 7px still enters the underflow sum
with right border 0: the resulting right border width is 0 and the content
width is the full 100 instead of 93. -/
theorem C3_border_right_width_ignored :
    (calculateWidth (.mk [("border-right-width", .length 7 .px)] .block [])
        Dimensions.default { Dimensions.default with content.width := 100 }).map
      (fun d => (d.border.right, d.content.width)) = .ok (0, 100) ∧
    (StyledNode.mk [("border-right-width", .length 7 .px)] .block []).numOr
      "border-right-width" 0 = 7 := by
  constructor
  · with_unfolding_all rfl
  · rfl

mutual
/-- Helper for C2: the styled nodes mirrored by `build_layout_tree` are
exactly the spec-side pruned preorder. -/
theorem boxNodes_build (root : StyledNode) :
    boxNodes (buildLayoutTree root) = prunedPre root := by
  match root with
  | .mk props disp kids =>
    simp [buildLayoutTree, boxNodes, prunedPre, boxNodesList_buildKids kids]
/-- Helper for C2, child-list part. -/
theorem boxNodesList_buildKids (kids : List StyledNode) :
    boxNodesList (buildKids kids) = prunedKidsList kids := by
  match kids with
  | [] => rfl
  | .mk p dsp ks :: cs =>
    have ih := boxNodesList_buildKids cs
    have ihc := boxNodes_build (StyledNode.mk p dsp ks)
    cases dsp <;>
      simp_all [buildKids, boxNodesList, prunedKidsList, StyledNode.display]
end

/-- C2 counterexample: a root styled node with resolved display None is
not pruned — `layout_tree` still produces a `LayoutBox` (an Anonymous box)
corresponding to it, so the layout output is not empty of its nodes. -/
theorem C2_none_root_counterexample :
    (layoutTree (.mk [] .none []) Dimensions.default).map boxNodes =
      .ok [StyledNode.mk [] .none []] := by rfl

/-- C2 (amended): every non-root styled node whose resolved display is
None contributes no `LayoutBox`, and none of its descendants appear in the
output regardless of their own display values; the root, however, is
always mirrored (as an Anonymous box when its display is None), and all
remaining nodes are mirrored in source order. -/
theorem C2_display_none_pruning_amended (root : StyledNode) :
    boxNodes (buildLayoutTree root) = prunedPre root :=
  boxNodes_build root

/-- C1 (code bug): for a parent of content width 100 with two inline-block
children of margin-box width 60 = 0.6·100 and height 30, the wrap-and-retry
of `layout_children` fires (cursor 120 > 100, the run is flushed and the
second child re-laid), but `calculate_inline_pos` positions from the
containing block's `content.y + current.y` without its accumulated content
height, and `current.y` is never advanced — so the re-laid second child
keeps content.y = 0, *equal* to (not greater than) the first child's, and
the parent's accumulated content height is 30, the first line only (the
run in progress when the loop ends is never flushed). -/
theorem C1_inline_block_wrap_does_not_advance_y :
    (layoutTree
        (.mk [("width", .length 100 .px)] .block
          [.mk [("width", .length 60 .px), ("height", .length 30 .px)] .inlineBlock [],
           .mk [("width", .length 60 .px), ("height", .length 30 .px)] .inlineBlock []])
        { Dimensions.default with content.width := 100 }).map
      (fun b =>
        (b.children.map (fun c => c.dimensions.content.y),
         b.children.map (fun c => c.dimensions.content.x),
         b.dimensions.content.height)) = .ok ([0, 0], [0, 0], 30) := by
  with_unfolding_all rfl

/-! ## Error characterization and invariants of the layout pass -/

/-- A styled node whose declared width resolves to a `Length` in a unit
other than `px` or `percent` — exactly the condition on which
`get_abs_num` panics when the node's width is computed. -/
def badWidth (s : StyledNode) : Bool :=
  match s.value "width" with
  | some (.length _ u) => !(u == .px || u == .pct)
  | _ => false

mutual
/-- Whether the layout pass, laying out this box, reaches a box with a bad
declared width: Anonymous boxes are not laid out and stop the recursion. -/
def anyBadBox : LayoutBox → Bool
  | .mk _ bt s kids =>
    match bt with
    | .anonymous => false
    | _ => badWidth s || anyBadBoxList kids
/-- `anyBadBox` over a child list. -/
def anyBadBoxList : List LayoutBox → Bool
  | [] => false
  | k :: ks => anyBadBox k || anyBadBoxList ks
end

mutual
/-- Whether the layout pass starting from this styled node reaches a
laid-out box with a bad declared width: a display-None node maps to an
Anonymous box, which is not laid out. -/
def reachedBad : StyledNode → Bool
  | .mk props disp kids =>
    match disp with
    | .none => false
    | _ => badWidth (.mk props disp kids) || reachedBadList kids
/-- `reachedBad` over a child list. -/
def reachedBadList : List StyledNode → Bool
  | [] => false
  | c :: cs => reachedBad c || reachedBadList cs
end

mutual
/-- The skeleton of a layout box: everything except the computed
dimensions.  Layout only rewrites dimensions, so it preserves `strip`. -/
def strip : LayoutBox → LayoutBox
  | .mk _ bt s kids => .mk Dimensions.default bt s (stripList kids)
/-- `strip` over a child list. -/
def stripList : List LayoutBox → List LayoutBox
  | [] => []
  | k :: ks => strip k :: stripList ks
end

/-- The top margin + top border + top padding of a styled node, as read by
`calculate_inline_pos`. -/
def topsOf (s : StyledNode) : Rat :=
  s.numOr "margin-top" 0 + s.numOr "border-top-width" 0 + s.numOr "padding-top" 0

mutual
/-- Every `Dimensions` in the tree has flow-cursor `current.y = 0`. -/
def allCYZero : LayoutBox → Prop
  | .mk d _ _ kids => d.current.y = 0 ∧ allCYZeroList kids
/-- `allCYZero` over a child list. -/
def allCYZeroList : List LayoutBox → Prop
  | [] => True
  | k :: ks => allCYZero k ∧ allCYZeroList ks
end

mutual
/-- In every laid-out box of the tree, each inline-block child sits at
`content.y = parent content.y + its own top margin+border+padding`,
independent of earlier siblings or wrapping.  An Anonymous box performs no
layout (its children keep their input geometry), so it is exempt. -/
def yOk : LayoutBox → Prop
  | .mk d bt _ kids =>
    match bt with
    | .anonymous => True
    | _ => yOkList d.content.y kids
/-- `yOk` for the children of a box whose content.y is `cy`. -/
def yOkList : Rat → List LayoutBox → Prop
  | _, [] => True
  | cy, k :: ks =>
    (k.boxType = .inlineBlock → k.dimensions.content.y = cy + topsOf k.styledNode) ∧
      yOk k ∧ yOkList cy ks
end

/-! ### Field-preservation lemmas for the width/position/height steps -/

theorem calculateWidth_preserves {s : StyledNode} {d bBox d' : Dimensions}
    (h : calculateWidth s d bBox = .ok d') :
    d'.current = d.current ∧ d'.content.x = d.content.x ∧
    d'.content.y = d.content.y ∧ d'.content.height = d.content.height := by
  unfold calculateWidth at h
  cases hga : getAbsNum s bBox "width" with
  | error e => rw [hga] at h; simp [Bind.bind, Except.bind] at h
  | ok w =>
    rw [hga] at h
    simp only [Bind.bind, Except.bind, pure, Except.pure] at h
    split at h <;> [split at h; split at h] <;>
      (cases h; exact ⟨rfl, rfl, rfl, rfl⟩)

theorem calculatePos_current (s : StyledNode) (d bBox : Dimensions) :
    (calculatePos s d bBox).current = d.current := rfl

theorem calculatePos_content_y (s : StyledNode) (d bBox : Dimensions) :
    (calculatePos s d bBox).content.y =
      bBox.content.height + bBox.content.y + s.numOr "margin-top" 0 +
        s.numOr "border-top-width" 0 + s.numOr "padding-top" 0 := rfl

theorem calculateHeight_preserves (s : StyledNode) (d : Dimensions) :
    (calculateHeight s d).current = d.current ∧
    (calculateHeight s d).content.y = d.content.y ∧
    (calculateHeight s d).content.x = d.content.x := by
  unfold calculateHeight
  split <;> exact ⟨rfl, rfl, rfl⟩

theorem calculateInlineWidth_preserves {s : StyledNode} {d bBox d' : Dimensions}
    (h : calculateInlineWidth s d bBox = .ok d') :
    d'.current = d.current ∧ d'.content.x = d.content.x ∧
    d'.content.y = d.content.y ∧ d'.content.height = d.content.height := by
  unfold calculateInlineWidth at h
  cases hga : getAbsNum s bBox "width" with
  | error e => rw [hga] at h; simp [Bind.bind, Except.bind] at h
  | ok w =>
    rw [hga] at h
    simp only [Bind.bind, Except.bind, pure, Except.pure] at h
    cases h
    exact ⟨rfl, rfl, rfl, rfl⟩

theorem calculateInlinePos_current (s : StyledNode) (d bBox : Dimensions) :
    (calculateInlinePos s d bBox).current = d.current := rfl

theorem calculateInlinePos_content_y (s : StyledNode) (d bBox : Dimensions) :
    (calculateInlinePos s d bBox).content.y =
      bBox.content.y + bBox.current.y + s.numOr "margin-top" 0 +
        s.numOr "border-top-width" 0 + s.numOr "padding-top" 0 := rfl

/-! ### Skeleton lemmas -/

theorem strip_components {a b : LayoutBox} (h : strip a = strip b) :
    a.boxType = b.boxType ∧ a.styledNode = b.styledNode := by
  match a, b with
  | .mk d1 bt1 s1 k1, .mk d2 bt2 s2 k2 =>
    rw [strip, strip] at h
    injection h with h1 h2 h3 h4
    exact ⟨h2, h3⟩

mutual
/-- `anyBadBox` only looks at the skeleton. -/
theorem anyBadBox_strip (k : LayoutBox) : anyBadBox (strip k) = anyBadBox k := by
  match k with
  | .mk d bt s kids =>
    cases bt <;> simp [strip, anyBadBox, anyBadBoxList_strip kids]
/-- `anyBadBoxList` only looks at the skeletons. -/
theorem anyBadBoxList_strip (ks : List LayoutBox) :
    anyBadBoxList (stripList ks) = anyBadBoxList ks := by
  match ks with
  | [] => rfl
  | k :: ks =>
    rw [stripList, anyBadBoxList, anyBadBoxList, anyBadBox_strip k, anyBadBoxList_strip ks]
end

mutual
/-- `heightLB` only looks at the skeleton. -/
theorem heightLB_strip (k : LayoutBox) : heightLB (strip k) = heightLB k := by
  match k with
  | .mk d bt s kids =>
    rw [strip, heightLB, heightLB, heightLBList_strip kids]
/-- `heightLBList` only looks at the skeletons. -/
theorem heightLBList_strip (ks : List LayoutBox) :
    heightLBList (stripList ks) = heightLBList ks := by
  match ks with
  | [] => rfl
  | k :: ks =>
    rw [stripList, heightLBList, heightLBList, heightLB_strip k, heightLBList_strip ks]
end

theorem anyBadBox_of_strip_eq {a b : LayoutBox} (h : strip a = strip b) :
    anyBadBox a = anyBadBox b := by
  rw [← anyBadBox_strip a, ← anyBadBox_strip b, h]

theorem heightLB_of_strip_eq {a b : LayoutBox} (h : strip a = strip b) :
    heightLB a = heightLB b := by
  rw [← heightLB_strip a, ← heightLB_strip b, h]

/-! ### Totality of the width computations -/

theorem getAbsNum_width (s : StyledNode) (bBox : Dimensions) :
    (badWidth s = true →
      getAbsNum s bBox "width" = .error (.unsupportedUnit "unimplemented css unit length")) ∧
    (badWidth s = false → ∃ w, getAbsNum s bBox "width" = .ok w) := by
  unfold badWidth getAbsNum
  cases hv : s.value "width" with
  | none => simp
  | some v =>
    cases v with
    | color c => simp
    | other str => simp
    | length n u => cases u <;> simp

theorem calculateWidth_total (s : StyledNode) (d bBox : Dimensions) :
    (badWidth s = true →
      calculateWidth s d bBox = .error (.unsupportedUnit "unimplemented css unit length")) ∧
    (badWidth s = false → ∃ d', calculateWidth s d bBox = .ok d') := by
  obtain ⟨hbad, hgood⟩ := getAbsNum_width s bBox
  constructor
  · intro hb
    unfold calculateWidth
    rw [hbad hb]
    rfl
  · intro hg
    obtain ⟨w, hw⟩ := hgood hg
    unfold calculateWidth
    rw [hw]
    simp only [Bind.bind, Except.bind, pure, Except.pure]
    split
    · split <;> exact ⟨_, rfl⟩
    · split <;> exact ⟨_, rfl⟩

theorem calculateInlineWidth_total (s : StyledNode) (d bBox : Dimensions) :
    (badWidth s = true →
      calculateInlineWidth s d bBox = .error (.unsupportedUnit "unimplemented css unit length")) ∧
    (badWidth s = false → ∃ d', calculateInlineWidth s d bBox = .ok d') := by
  obtain ⟨hbad, hgood⟩ := getAbsNum_width s bBox
  constructor
  · intro hb
    unfold calculateInlineWidth
    rw [hbad hb]
    rfl
  · intro hg
    obtain ⟨w, hw⟩ := hgood hg
    unfold calculateInlineWidth
    rw [hw]
    exact ⟨_, rfl⟩

/-! ### Invariants of one child-loop iteration -/

theorem preFlush_fields (d : Dimensions) (m : Rat) (p c : BoxType) :
    (preFlush d m p c).content.x = d.content.x ∧
    (preFlush d m p c).content.y = d.content.y ∧
    (preFlush d m p c).current.y = d.current.y := by
  cases p <;> cases c <;> exact ⟨rfl, rfl, rfl⟩

theorem layoutChildStep_inv
    {recur : LayoutBox → Dimensions → Except LayoutErr LayoutBox}
    (hrec : ∀ k bb k', recur k bb = .ok k' →
      strip k' = strip k ∧
      k'.dimensions.current.y = k.dimensions.current.y ∧
      (bb.current.y = 0 → allCYZero k →
        allCYZero k' ∧ yOk k' ∧
        (k'.boxType = .inlineBlock →
          k'.dimensions.content.y = bb.content.y + topsOf k'.styledNode)))
    {d : Dimensions} {maxH : Rat} {prev : BoxType} {child : LayoutBox}
    {d2 : Dimensions} {maxH2 : Rat} {child2 : LayoutBox}
    (h : layoutChildStep recur d maxH prev child = .ok (d2, maxH2, child2)) :
    strip child2 = strip child ∧
    d2.content.x = d.content.x ∧ d2.content.y = d.content.y ∧
    d2.current.y = d.current.y ∧
    (d.current.y = 0 → allCYZero child →
      allCYZero child2 ∧ yOk child2 ∧
      (child2.boxType = .inlineBlock →
        child2.dimensions.content.y = d.content.y + topsOf child2.styledNode)) := by
  unfold layoutChildStep at h
  simp only [Bind.bind, Except.bind, pure, Except.pure] at h
  obtain ⟨hpx, hpy, hpcy⟩ := preFlush_fields d maxH prev child.boxType
  set d1 := preFlush d maxH prev child.boxType with hd1
  cases hr1 : recur child d1 with
  | error e => rw [hr1] at h; simp at h
  | ok c1 =>
    rw [hr1] at h
    obtain ⟨hs1, hcy1, hinv1⟩ := hrec child d1 c1 hr1
    cases hbt1 : c1.boxType with
    | block =>
      simp only [hbt1] at h
      simp only [Prod.mk.injEq, Except.ok.injEq] at h
      obtain ⟨hd2, hmh, hc2⟩ := h
      subst hd2; subst hc2
      refine ⟨hs1, by simp [hpx], by simp [hpy], by simp [hpcy], ?_⟩
      intro hcy0 hacz
      obtain ⟨ha1, hy1, _⟩ := hinv1 (by rw [hpcy, hcy0]) hacz
      exact ⟨ha1, hy1, by simp [hbt1]⟩
    | inlineBlock =>
      simp only [hbt1] at h
      split at h
      · -- wrap: the advance overflowed; the same child is re-laid
        split at h
        next e hr2 => simp at h
        next c2 hr2 =>
          simp only [Prod.mk.injEq, Except.ok.injEq] at h
          obtain ⟨hd2, hmh, hc2⟩ := h
          subst hd2; subst hc2
          obtain ⟨hs2, hcy2, hinv2⟩ := hrec c1 _ c2 hr2
          refine ⟨hs2.trans hs1, by simp [hpx], by simp [hpy], by simp [hpcy], ?_⟩
          intro hcy0 hacz
          obtain ⟨ha1, hy1, _⟩ := hinv1 (by rw [hpcy, hcy0]) hacz
          obtain ⟨ha2, hy2, hiy2⟩ := hinv2 (by simp [hpcy, hcy0]) ha1
          refine ⟨ha2, hy2, ?_⟩
          intro hib2
          rw [hiy2 hib2]
          simp [hpy]
      · -- no wrap: just advance the cursor
        simp only [Prod.mk.injEq, Except.ok.injEq] at h
        obtain ⟨hd2, hmh, hc2⟩ := h
        subst hd2; subst hc2
        refine ⟨hs1, by simp [hpx], by simp [hpy], by simp [hpcy], ?_⟩
        intro hcy0 hacz
        obtain ⟨ha1, hy1, hiy1⟩ := hinv1 (by rw [hpcy, hcy0]) hacz
        refine ⟨ha1, hy1, ?_⟩
        intro hib1
        rw [hiy1 hib1, hpy]
    | inline =>
      simp only [hbt1] at h
      simp only [Prod.mk.injEq, Except.ok.injEq] at h
      obtain ⟨hd2, hmh, hc2⟩ := h
      subst hd2; subst hc2
      refine ⟨hs1, hpx, hpy, hpcy, ?_⟩
      intro hcy0 hacz
      obtain ⟨ha1, hy1, _⟩ := hinv1 (by rw [hpcy, hcy0]) hacz
      exact ⟨ha1, hy1, by simp [hbt1]⟩
    | anonymous =>
      simp only [hbt1] at h
      simp only [Prod.mk.injEq, Except.ok.injEq] at h
      obtain ⟨hd2, hmh, hc2⟩ := h
      subst hd2; subst hc2
      refine ⟨hs1, hpx, hpy, hpcy, ?_⟩
      intro hcy0 hacz
      obtain ⟨ha1, hy1, _⟩ := hinv1 (by rw [hpcy, hcy0]) hacz
      exact ⟨ha1, hy1, by simp [hbt1]⟩

theorem layoutChildrenAux_inv
    {recur : LayoutBox → Dimensions → Except LayoutErr LayoutBox}
    (hrec : ∀ k bb k', recur k bb = .ok k' →
      strip k' = strip k ∧
      k'.dimensions.current.y = k.dimensions.current.y ∧
      (bb.current.y = 0 → allCYZero k →
        allCYZero k' ∧ yOk k' ∧
        (k'.boxType = .inlineBlock →
          k'.dimensions.content.y = bb.content.y + topsOf k'.styledNode))) :
    ∀ (kids : List LayoutBox) (d : Dimensions) (maxH : Rat) (prev : BoxType)
      (d' : Dimensions) (kids' : List LayoutBox),
      layoutChildrenAux recur d maxH prev kids = .ok (d', kids') →
      stripList kids' = stripList kids ∧
      d'.content.x = d.content.x ∧ d'.content.y = d.content.y ∧
      d'.current.y = d.current.y ∧
      (d.current.y = 0 → allCYZeroList kids →
        allCYZeroList kids' ∧ yOkList d.content.y kids')
  | [], d, maxH, prev, d', kids', h => by
    unfold layoutChildrenAux at h
    simp only [Except.ok.injEq, Prod.mk.injEq] at h
    obtain ⟨hd, hk⟩ := h
    subst hd; subst hk
    exact ⟨rfl, rfl, rfl, rfl, fun _ _ => ⟨trivial, trivial⟩⟩
  | child :: rest, d, maxH, prev, d', kids', h => by
    unfold layoutChildrenAux at h
    simp only [Bind.bind, Except.bind, pure, Except.pure] at h
    cases hstep : layoutChildStep recur d maxH prev child with
    | error e => simp only [hstep] at h; simp at h
    | ok trip =>
      simp only [hstep] at h
      obtain ⟨dm, mh, c1⟩ := trip
      cases hrest : layoutChildrenAux recur dm mh c1.boxType rest with
      | error e => simp only [hrest] at h; simp at h
      | ok pr =>
        simp only [hrest] at h
        obtain ⟨dr, rest'⟩ := pr
        simp only [Prod.mk.injEq, Except.ok.injEq] at h
        obtain ⟨hdr, hrest'⟩ := h
        subst hdr; subst hrest'
        obtain ⟨hstrip1, hsx, hsy, hscy, hsinv⟩ := layoutChildStep_inv hrec hstep
        obtain ⟨hstripr, hrx, hry, hrcy, hrinv⟩ :=
          layoutChildrenAux_inv hrec rest dm mh c1.boxType dr rest' hrest
        refine ⟨?_, ?_, ?_, ?_, ?_⟩
        · rw [stripList, stripList, hstrip1, hstripr]
        · rw [hrx, hsx]
        · rw [hry, hsy]
        · rw [hrcy, hscy]
        · intro hcy0 hacz
          rw [allCYZeroList] at hacz
          obtain ⟨hac1, hacr⟩ := hacz
          obtain ⟨ha1, hy1, hiy1⟩ := hsinv hcy0 hac1
          obtain ⟨har, hyr⟩ := hrinv (by rw [hscy, hcy0]) hacr
          rw [hsy] at hyr
          exact ⟨⟨ha1, har⟩, hiy1, hy1, hyr⟩

theorem layoutF_inv :
    ∀ (fuel : Nat) (box : LayoutBox) (bBox : Dimensions) (box' : LayoutBox),
      layoutF fuel box bBox = .ok box' →
      strip box' = strip box ∧
      box'.dimensions.current.y = box.dimensions.current.y ∧
      (bBox.current.y = 0 → allCYZero box →
        allCYZero box' ∧ yOk box' ∧
        (box'.boxType = .inlineBlock →
          box'.dimensions.content.y = bBox.content.y + topsOf box'.styledNode))
  | 0, box, bBox, box', h => by simp [layoutF] at h
  | fuel + 1, .mk d0 bt s kids, bBox, box', h => by
    have hrec : ∀ k bb k', layoutF fuel k bb = .ok k' →
        strip k' = strip k ∧
        k'.dimensions.current.y = k.dimensions.current.y ∧
        (bb.current.y = 0 → allCYZero k →
          allCYZero k' ∧ yOk k' ∧
          (k'.boxType = .inlineBlock →
            k'.dimensions.content.y = bb.content.y + topsOf k'.styledNode)) :=
      fun k bb k' hk => layoutF_inv fuel k bb k' hk
    cases bt with
    | anonymous =>
      simp only [layoutF, Except.ok.injEq] at h
      subst h
      refine ⟨rfl, rfl, ?_⟩
      intro hcy0 hacz
      exact ⟨hacz, trivial, by simp [LayoutBox.boxType]⟩
    | block =>
      simp only [layoutF, Bind.bind, Except.bind, pure, Except.pure] at h
      cases hcw : calculateWidth s d0 bBox with
      | error e => simp only [hcw] at h; simp at h
      | ok dW =>
        simp only [hcw] at h
        cases hch : layoutChildrenAux (layoutF fuel) (calculatePos s dW bBox) 0 .block kids with
        | error e => simp only [hch] at h; simp at h
        | ok pr =>
          simp only [hch] at h
          obtain ⟨dC, kids'⟩ := pr
          simp only [Except.ok.injEq] at h
          subst h
          obtain ⟨hstripk, hkx, hky, hkcy, hkinv⟩ :=
            layoutChildrenAux_inv hrec kids (calculatePos s dW bBox) 0 .block dC kids' hch
          obtain ⟨hWcur, hWx, hWy, hWh⟩ := calculateWidth_preserves hcw
          obtain ⟨hHcur, hHy, hHx⟩ := calculateHeight_preserves s dC
          have hcury : (calculateHeight s dC).current.y = d0.current.y := by
            rw [hHcur, hkcy, calculatePos_current, hWcur]
          refine ⟨?_, ?_, ?_⟩
          · rw [strip, strip, hstripk]
          · simpa [LayoutBox.dimensions] using hcury
          · intro hcy0 hacz
            rw [allCYZero] at hacz
            obtain ⟨hd0cy, haczk⟩ := hacz
            obtain ⟨hak, hyk⟩ := hkinv (by rw [calculatePos_current, hWcur, hd0cy]) haczk
            refine ⟨⟨by simpa [LayoutBox.dimensions] using hcury.trans hd0cy, hak⟩, ?_, ?_⟩
            · show yOkList (calculateHeight s dC).content.y kids'
              rw [hHy, hky]
              exact hyk
            · intro hib
              simp [LayoutBox.boxType] at hib
    | inline =>
      simp only [layoutF, Bind.bind, Except.bind, pure, Except.pure] at h
      cases hcw : calculateWidth s d0 bBox with
      | error e => simp only [hcw] at h; simp at h
      | ok dW =>
        simp only [hcw] at h
        cases hch : layoutChildrenAux (layoutF fuel) (calculatePos s dW bBox) 0 .block kids with
        | error e => simp only [hch] at h; simp at h
        | ok pr =>
          simp only [hch] at h
          obtain ⟨dC, kids'⟩ := pr
          simp only [Except.ok.injEq] at h
          subst h
          obtain ⟨hstripk, hkx, hky, hkcy, hkinv⟩ :=
            layoutChildrenAux_inv hrec kids (calculatePos s dW bBox) 0 .block dC kids' hch
          obtain ⟨hWcur, hWx, hWy, hWh⟩ := calculateWidth_preserves hcw
          obtain ⟨hHcur, hHy, hHx⟩ := calculateHeight_preserves s dC
          have hcury : (calculateHeight s dC).current.y = d0.current.y := by
            rw [hHcur, hkcy, calculatePos_current, hWcur]
          refine ⟨?_, ?_, ?_⟩
          · rw [strip, strip, hstripk]
          · simpa [LayoutBox.dimensions] using hcury
          · intro hcy0 hacz
            rw [allCYZero] at hacz
            obtain ⟨hd0cy, haczk⟩ := hacz
            obtain ⟨hak, hyk⟩ := hkinv (by rw [calculatePos_current, hWcur, hd0cy]) haczk
            refine ⟨⟨by simpa [LayoutBox.dimensions] using hcury.trans hd0cy, hak⟩, ?_, ?_⟩
            · show yOkList (calculateHeight s dC).content.y kids'
              rw [hHy, hky]
              exact hyk
            · intro hib
              simp [LayoutBox.boxType] at hib
    | inlineBlock =>
      simp only [layoutF, Bind.bind, Except.bind, pure, Except.pure] at h
      cases hcw : calculateInlineWidth s d0 bBox with
      | error e => simp only [hcw] at h; simp at h
      | ok dW =>
        simp only [hcw] at h
        cases hch : layoutChildrenAux (layoutF fuel) (calculateInlinePos s dW bBox) 0 .block kids with
        | error e => simp only [hch] at h; simp at h
        | ok pr =>
          simp only [hch] at h
          obtain ⟨dC, kids'⟩ := pr
          simp only [Except.ok.injEq] at h
          subst h
          obtain ⟨hstripk, hkx, hky, hkcy, hkinv⟩ :=
            layoutChildrenAux_inv hrec kids (calculateInlinePos s dW bBox) 0 .block dC kids' hch
          obtain ⟨hWcur, hWx, hWy, hWh⟩ := calculateInlineWidth_preserves hcw
          obtain ⟨hHcur, hHy, hHx⟩ := calculateHeight_preserves s dC
          have hcury : (calculateHeight s dC).current.y = d0.current.y := by
            rw [hHcur, hkcy, calculateInlinePos_current, hWcur]
          refine ⟨?_, ?_, ?_⟩
          · rw [strip, strip, hstripk]
          · simpa [LayoutBox.dimensions] using hcury
          · intro hcy0 hacz
            rw [allCYZero] at hacz
            obtain ⟨hd0cy, haczk⟩ := hacz
            obtain ⟨hak, hyk⟩ := hkinv (by rw [calculateInlinePos_current, hWcur, hd0cy]) haczk
            refine ⟨⟨by simpa [LayoutBox.dimensions] using hcury.trans hd0cy, hak⟩, ?_, ?_⟩
            · show yOkList (calculateHeight s dC).content.y kids'
              rw [hHy, hky]
              exact hyk
            · intro hib
              rw [LayoutBox.dimensions, LayoutBox.styledNode, hHy, hky,
                calculateInlinePos_content_y, hcy0, topsOf]
              ring

/-! ### Totality and error characterization of the layout pass -/

theorem heightLB_pos (box : LayoutBox) : 1 ≤ heightLB box := by
  match box with
  | .mk d bt s kids => rw [heightLB]; omega

theorem heightLB_cons_le {k : LayoutBox} {ks : List LayoutBox} :
    heightLB k ≤ heightLBList (k :: ks) ∧ heightLBList ks ≤ heightLBList (k :: ks) := by
  rw [heightLBList]
  exact ⟨le_max_left _ _, le_max_right _ _⟩

theorem layoutChildStep_total
    {recur : LayoutBox → Dimensions → Except LayoutErr LayoutBox} (fp : Nat)
    (hrecT : ∀ k bb, heightLB k ≤ fp →
      (anyBadBox k = true →
        recur k bb = .error (.unsupportedUnit "unimplemented css unit length")) ∧
      (anyBadBox k = false → ∃ k', recur k bb = .ok k'))
    (hrecP : ∀ k bb k', recur k bb = .ok k' → strip k' = strip k) :
    ∀ (d : Dimensions) (maxH : Rat) (prev : BoxType) (child : LayoutBox),
      heightLB child ≤ fp →
      (anyBadBox child = true →
        layoutChildStep recur d maxH prev child =
          .error (.unsupportedUnit "unimplemented css unit length")) ∧
      (anyBadBox child = false →
        ∃ dm mh c1, layoutChildStep recur d maxH prev child = .ok (dm, mh, c1) ∧
          strip c1 = strip child) := by
  intro d maxH prev child hh
  constructor
  · intro hbad
    unfold layoutChildStep
    simp only [Bind.bind, Except.bind, pure, Except.pure]
    rw [(hrecT child (preFlush d maxH prev child.boxType) hh).1 hbad]
  · intro hgood
    set d1 := preFlush d maxH prev child.boxType with hd1
    obtain ⟨c1, hr1⟩ := (hrecT child d1 hh).2 hgood
    have hs1 := hrecP child d1 c1 hr1
    unfold layoutChildStep
    simp only [Bind.bind, Except.bind, pure, Except.pure]
    simp only [← hd1, hr1]
    cases hbt1 : c1.boxType with
    | block => exact ⟨_, _, c1, rfl, hs1⟩
    | inlineBlock =>
      by_cases hif : d1.current.x + c1.dimensions.marginBox.width > d1.content.width
      · -- wrap: re-lay the same (still good) child
        rw [if_pos hif]
        have hbad1 : anyBadBox c1 = false := by
          rw [anyBadBox_of_strip_eq hs1]; exact hgood
        have hh1 : heightLB c1 ≤ fp := by
          rw [heightLB_of_strip_eq hs1]; exact hh
        obtain ⟨c2, hr2⟩ := (hrecT c1
          { d1 with
            content.height := d1.content.height +
              (if c1.dimensions.marginBox.height > maxH then c1.dimensions.marginBox.height
                else maxH),
            current.x := 0 } hh1).2 hbad1
        simp only [hr2]
        exact ⟨_, _, c2, rfl, (hrecP c1 _ c2 hr2).trans hs1⟩
      · rw [if_neg hif]
        exact ⟨_, _, c1, rfl, hs1⟩
    | inline => exact ⟨_, _, c1, rfl, hs1⟩
    | anonymous => exact ⟨_, _, c1, rfl, hs1⟩

theorem layoutChildrenAux_total
    {recur : LayoutBox → Dimensions → Except LayoutErr LayoutBox} (fp : Nat)
    (hrecT : ∀ k bb, heightLB k ≤ fp →
      (anyBadBox k = true →
        recur k bb = .error (.unsupportedUnit "unimplemented css unit length")) ∧
      (anyBadBox k = false → ∃ k', recur k bb = .ok k'))
    (hrecP : ∀ k bb k', recur k bb = .ok k' → strip k' = strip k) :
    ∀ (kids : List LayoutBox) (d : Dimensions) (maxH : Rat) (prev : BoxType),
      heightLBList kids ≤ fp →
      (anyBadBoxList kids = true →
        layoutChildrenAux recur d maxH prev kids =
          .error (.unsupportedUnit "unimplemented css unit length")) ∧
      (anyBadBoxList kids = false →
        ∃ d' kids', layoutChildrenAux recur d maxH prev kids = .ok (d', kids'))
  | [], d, maxH, prev, hh => by
    constructor
    · intro hbad; simp [anyBadBoxList] at hbad
    · intro _; exact ⟨d, [], rfl⟩
  | child :: rest, d, maxH, prev, hh => by
    have hhc : heightLB child ≤ fp := le_trans heightLB_cons_le.1 hh
    have hhr : heightLBList rest ≤ fp := le_trans heightLB_cons_le.2 hh
    obtain ⟨hstepB, hstepG⟩ := layoutChildStep_total fp hrecT hrecP d maxH prev child hhc
    constructor
    · intro hbad
      rw [anyBadBoxList] at hbad
      unfold layoutChildrenAux
      simp only [Bind.bind, Except.bind, pure, Except.pure]
      cases hkb : anyBadBox child with
      | true => rw [hstepB hkb]
      | false =>
        rw [hkb] at hbad
        simp only [Bool.false_or] at hbad
        obtain ⟨dm, mh, c1, hstep, hs1⟩ := hstepG hkb
        simp only [hstep]
        have := (layoutChildrenAux_total fp hrecT hrecP rest dm mh c1.boxType hhr).1 hbad
        rw [this]
    · intro hgood
      rw [anyBadBoxList, Bool.or_eq_false_iff] at hgood
      obtain ⟨hkg, hrg⟩ := hgood
      unfold layoutChildrenAux
      simp only [Bind.bind, Except.bind, pure, Except.pure]
      obtain ⟨dm, mh, c1, hstep, hs1⟩ := hstepG hkg
      simp only [hstep]
      obtain ⟨dr, rest', hrest⟩ :=
        (layoutChildrenAux_total fp hrecT hrecP rest dm mh c1.boxType hhr).2 hrg
      simp only [hrest]
      exact ⟨dr, c1 :: rest', rfl⟩

theorem layoutF_total :
    ∀ (fuel : Nat) (box : LayoutBox) (bBox : Dimensions), heightLB box ≤ fuel →
      (anyBadBox box = true →
        layoutF fuel box bBox = .error (.unsupportedUnit "unimplemented css unit length")) ∧
      (anyBadBox box = false → ∃ box', layoutF fuel box bBox = .ok box')
  | 0, box, bBox, hh => absurd (le_trans (heightLB_pos box) hh) (by omega)
  | fuel + 1, .mk d0 bt s kids, bBox, hh => by
    have hhk : heightLBList kids ≤ fuel := by
      rw [heightLB] at hh; omega
    have hrecT := fun k bb hk => layoutF_total fuel k bb hk
    have hrecP : ∀ k bb k', layoutF fuel k bb = .ok k' → strip k' = strip k :=
      fun k bb k' hk => (layoutF_inv fuel k bb k' hk).1
    cases bt with
    | anonymous =>
      constructor
      · intro hbad; simp [anyBadBox] at hbad
      · intro _; exact ⟨_, rfl⟩
    | block =>
      obtain ⟨hcwB, hcwG⟩ := calculateWidth_total s d0 bBox
      constructor
      · intro hbad
        simp only [anyBadBox] at hbad
        simp only [layoutF, Bind.bind, Except.bind, pure, Except.pure]
        cases hbw : badWidth s with
        | true => rw [hcwB hbw]
        | false =>
          rw [hbw] at hbad
          simp only [Bool.false_or] at hbad
          obtain ⟨dW, hcw⟩ := hcwG hbw
          simp only [hcw]
          rw [(layoutChildrenAux_total fuel hrecT hrecP kids
            (calculatePos s dW bBox) 0 .block hhk).1 hbad]
      · intro hgood
        simp only [anyBadBox, Bool.or_eq_false_iff] at hgood
        obtain ⟨hbw, hkg⟩ := hgood
        simp only [layoutF, Bind.bind, Except.bind, pure, Except.pure]
        obtain ⟨dW, hcw⟩ := hcwG hbw
        simp only [hcw]
        obtain ⟨dC, kids', hch⟩ := (layoutChildrenAux_total fuel hrecT hrecP kids
          (calculatePos s dW bBox) 0 .block hhk).2 hkg
        simp only [hch]
        exact ⟨_, rfl⟩
    | inline =>
      obtain ⟨hcwB, hcwG⟩ := calculateWidth_total s d0 bBox
      constructor
      · intro hbad
        simp only [anyBadBox] at hbad
        simp only [layoutF, Bind.bind, Except.bind, pure, Except.pure]
        cases hbw : badWidth s with
        | true => rw [hcwB hbw]
        | false =>
          rw [hbw] at hbad
          simp only [Bool.false_or] at hbad
          obtain ⟨dW, hcw⟩ := hcwG hbw
          simp only [hcw]
          rw [(layoutChildrenAux_total fuel hrecT hrecP kids
            (calculatePos s dW bBox) 0 .block hhk).1 hbad]
      · intro hgood
        simp only [anyBadBox, Bool.or_eq_false_iff] at hgood
        obtain ⟨hbw, hkg⟩ := hgood
        simp only [layoutF, Bind.bind, Except.bind, pure, Except.pure]
        obtain ⟨dW, hcw⟩ := hcwG hbw
        simp only [hcw]
        obtain ⟨dC, kids', hch⟩ := (layoutChildrenAux_total fuel hrecT hrecP kids
          (calculatePos s dW bBox) 0 .block hhk).2 hkg
        simp only [hch]
        exact ⟨_, rfl⟩
    | inlineBlock =>
      obtain ⟨hcwB, hcwG⟩ := calculateInlineWidth_total s d0 bBox
      constructor
      · intro hbad
        simp only [anyBadBox] at hbad
        simp only [layoutF, Bind.bind, Except.bind, pure, Except.pure]
        cases hbw : badWidth s with
        | true => rw [hcwB hbw]
        | false =>
          rw [hbw] at hbad
          simp only [Bool.false_or] at hbad
          obtain ⟨dW, hcw⟩ := hcwG hbw
          simp only [hcw]
          rw [(layoutChildrenAux_total fuel hrecT hrecP kids
            (calculateInlinePos s dW bBox) 0 .block hhk).1 hbad]
      · intro hgood
        simp only [anyBadBox, Bool.or_eq_false_iff] at hgood
        obtain ⟨hbw, hkg⟩ := hgood
        simp only [layoutF, Bind.bind, Except.bind, pure, Except.pure]
        obtain ⟨dW, hcw⟩ := hcwG hbw
        simp only [hcw]
        obtain ⟨dC, kids', hch⟩ := (layoutChildrenAux_total fuel hrecT hrecP kids
          (calculateInlinePos s dW bBox) 0 .block hhk).2 hkg
        simp only [hch]
        exact ⟨_, rfl⟩

mutual
/-- The bad-width boxes reached through `build_layout_tree` are exactly
those styled nodes `reachedBad` describes. -/
theorem anyBadBox_buildLayoutTree (s : StyledNode) :
    anyBadBox (buildLayoutTree s) = reachedBad s := by
  match s with
  | .mk props disp kids =>
    cases disp <;>
      simp [buildLayoutTree, anyBadBox, reachedBad, anyBadBoxList_buildKids kids]
/-- Child-list part of `anyBadBox_buildLayoutTree`. -/
theorem anyBadBoxList_buildKids (kids : List StyledNode) :
    anyBadBoxList (buildKids kids) = reachedBadList kids := by
  match kids with
  | [] => rfl
  | .mk p dsp ks :: cs =>
    have ih := anyBadBoxList_buildKids cs
    have ihc := anyBadBox_buildLayoutTree (StyledNode.mk p dsp ks)
    cases dsp <;>
      simp_all [buildKids, anyBadBoxList, reachedBadList, reachedBad, StyledNode.display]
end

mutual
/-- Every box built by `build_layout_tree` starts with default dimensions,
so its flow cursor's `current.y` is 0 throughout the built tree. -/
theorem allCYZero_build (s : StyledNode) : allCYZero (buildLayoutTree s) := by
  match s with
  | .mk props disp kids =>
    exact ⟨rfl, allCYZeroList_build kids⟩
/-- Child-list part of `allCYZero_build`. -/
theorem allCYZeroList_build (kids : List StyledNode) :
    allCYZeroList (buildKids kids) := by
  match kids with
  | [] => rw [buildKids, allCYZeroList]; trivial
  | .mk p dsp ks :: cs =>
    have ih := allCYZeroList_build cs
    have ihc := allCYZero_build (StyledNode.mk p dsp ks)
    cases dsp <;> simp_all [buildKids, allCYZeroList, StyledNode.display]
end

theorem buildLayoutTree_styledNode (s : StyledNode) :
    (buildLayoutTree s).styledNode = s := by
  match s with
  | .mk props disp kids => rfl

/-- C4: `layout_tree` aborts the entire pass — returning an error and no
partial tree — exactly when some laid-out box's declared width resolves to
a `Length` whose unit is neither `px` nor `percent` (`reachedBad`); when
every reached box's width is absent, non-Length, or a Length in `px` or
`percent`, the pass completes with a full tree.  The last two conjuncts
record how the supported units resolve: `px` is used verbatim, `percent`
resolves against the containing block's content width. -/
theorem C4_unsupported_unit_aborts (root : StyledNode) (cb : Dimensions) :
    (reachedBad root = true →
      layoutTree root cb = .error (.unsupportedUnit "unimplemented css unit length")) ∧
    (reachedBad root = false → ∃ b, layoutTree root cb = .ok b) ∧
    (∀ (n : Rat) (props : List (String × Value)) (disp : Display)
      (kids : List StyledNode) (bb : Dimensions),
      getAbsNum (.mk (("width", .length n .px) :: props) disp kids) bb "width" =
        .ok (some n)) ∧
    (∀ (n : Rat) (props : List (String × Value)) (disp : Display)
      (kids : List StyledNode) (bb : Dimensions),
      getAbsNum (.mk (("width", .length n .pct) :: props) disp kids) bb "width" =
        .ok (some (n * bb.content.width / 100))) := by
  have htot := layoutF_total (heightLB (buildLayoutTree root)) (buildLayoutTree root)
    { cb with content.height := 0 } le_rfl
  rw [anyBadBox_buildLayoutTree] at htot
  refine ⟨?_, ?_, ?_, ?_⟩
  · intro hbad
    show layoutF _ _ _ = _
    exact htot.1 hbad
  · intro hgood
    obtain ⟨b, hb⟩ := htot.2 hgood
    exact ⟨b, hb⟩
  · intro n props disp kids bb
    simp [getAbsNum, StyledNode.value, StyledNode.props, List.lookup]
  · intro n props disp kids bb
    simp [getAbsNum, StyledNode.value, StyledNode.props, List.lookup]

/-- C10: no layout operation ever writes the flow cursor's vertical
component — starting from a containing block with `current.y = 0`, every
`Dimensions` in the produced tree still has `current.y = 0`, and
consequently every inline-block box's `content.y` equals its containing
block's `content.y` plus the box's own top margin, top border and top
padding, independent of earlier children or wrapping (`yOk`); for the root
box itself the containing block is the one passed to `layout_tree`. -/
theorem C10_current_y_never_written (root : StyledNode) (cb : Dimensions)
    (hcb : cb.current.y = 0) (hgood : reachedBad root = false) :
    ∃ b, layoutTree root cb = .ok b ∧ allCYZero b ∧ yOk b ∧
      (b.boxType = .inlineBlock →
        b.dimensions.content.y = cb.content.y + topsOf root) := by
  have htot := layoutF_total (heightLB (buildLayoutTree root)) (buildLayoutTree root)
    { cb with content.height := 0 } le_rfl
  rw [anyBadBox_buildLayoutTree] at htot
  obtain ⟨b, hb⟩ := htot.2 hgood
  obtain ⟨hstrip, hcy, hinv⟩ := layoutF_inv _ _ _ _ hb
  obtain ⟨hacz, hyok, hiy⟩ := hinv hcb (allCYZero_build root)
  refine ⟨b, hb, hacz, hyok, ?_⟩
  intro hib
  have hsn : b.styledNode = root := by
    rw [(strip_components hstrip).2, buildLayoutTree_styledNode]
  rw [hiy hib, hsn]

/-- C10 witness: the theorem applied to a parent of content width 100 with
two inline-block children (the wrap scenario) and a containing block whose
cursor is at the origin. -/
theorem C10_current_y_never_written_witness :
    ∃ b, layoutTree
        (.mk [("width", .length 100 .px)] .block
          [.mk [("width", .length 60 .px), ("height", .length 30 .px)] .inlineBlock [],
           .mk [("width", .length 60 .px), ("height", .length 30 .px)] .inlineBlock []])
        { Dimensions.default with content.width := 100 } = .ok b ∧
      allCYZero b ∧ yOk b ∧
      (b.boxType = .inlineBlock →
        b.dimensions.content.y =
          ({ Dimensions.default with content.width := 100 } : Dimensions).content.y +
            topsOf (.mk [("width", .length 100 .px)] .block
              [.mk [("width", .length 60 .px), ("height", .length 30 .px)] .inlineBlock [],
               .mk [("width", .length 60 .px), ("height", .length 30 .px)] .inlineBlock []])) :=
  C10_current_y_never_written _ _ rfl rfl

end Browser
